import Mathlib

open scoped List

/-!
Shallow embedding of the cache / rate-limiter core of the `sporty-koko`
repository (`src/lib/cache/cacheManager.ts`, `src/lib/cache/cacheInvalidation.ts`,
`src/lib/services/dataServiceCached.ts`), together with proofs settling the
specification claims about it.

Modelling conventions:
* JS `Map` objects become insertion-ordered association lists with unique keys
  (`Map.set` replaces in place or appends; `Map.delete` removes the entry).
* `localStorage` becomes an association list from full keys to stored records;
  a stored record is either a well-formed serialized entry (`StoredRec.ok`)
  or an unparseable blob (`StoredRec.bad`, whose `JSON.parse` throws).
* `Date.now()` becomes an explicit `now : Int` argument (epoch milliseconds).
* A `localStorage.setItem` call may fail; the outcome of each attempted write
  is passed in explicitly as a `WriteOutcome` (success / quota-exceeded /
  other failure), mirroring the `try`/`catch` classification in `set`.
* Numbers are exact integers; `Math.floor(n * 0.2)` and `Math.floor(n * 0.1)`
  become `n * 2 / 10` and `n / 10` (Nat division), which agree with the
  floating-point computation at the configured sizes.
-/

namespace SportyKoko

/-- `interface CacheEntry<T>` from `cacheManager.ts`.  `data : Option α`
models the payload of type `T`: `none` is a cached JS `null`. -/
structure CacheEntry (α : Type) where
  data : Option α
  timestamp : Int
  ttl : Int
  metadata : Option String
deriving DecidableEq, Repr

/-- A tier-2 (localStorage) record: either the JSON serialization of an entry
(`ok`, `JSON.parse` recovers the entry) or a corrupted blob (`bad`,
`JSON.parse` throws). -/
inductive StoredRec (α : Type) where
  | ok (e : CacheEntry α)
  | bad
deriving DecidableEq, Repr

/-- Outcome of one attempted `localStorage.setItem` call. -/
inductive WriteOutcome where
  | success
  | quotaExceeded
  | otherFailure
deriving DecidableEq, Repr

/-- The mutable state of a `CacheManager` instance: the tier-1 `Map`, the
optional tier-2 store, the metrics counters and the configuration. -/
structure CacheState (α : Type) where
  memoryCache : List (String × CacheEntry α)
  storage : Option (List (String × StoredRec α))
  hits : Nat
  misses : Nat
  sets : Nat
  evictions : Nat
  maxMemoryEntries : Nat
  storagePrefix : String
deriving DecidableEq, Repr

/-- `interface CacheOptions` with the defaults used by `set`. -/
structure CacheOptions where
  ttl : Int := 60 * 60 * 1000
  persistToStorage : Bool := true
  storageKey : Option String := none
  metadata : Option String := none
deriving DecidableEq, Repr

/-! ### JS `Map` / `localStorage` primitives -/

/-- `Map.get` / `localStorage.getItem`: first (unique) binding of a key. -/
def mapGet {κ β : Type} [DecidableEq κ] : List (κ × β) → κ → Option β
  | [], _ => none
  | (k', v) :: rest, k => if k' = k then some v else mapGet rest k

/-- `Map.set` / `localStorage.setItem`: replace the binding in place if the
key is present, otherwise append it. -/
def mapSet {κ β : Type} [DecidableEq κ] : List (κ × β) → κ → β → List (κ × β)
  | [], k, v => [(k, v)]
  | (k', v') :: rest, k, v =>
      if k' = k then (k, v) :: rest else (k', v') :: mapSet rest k v

/-- `Map.delete` / `localStorage.removeItem`: remove the binding of a key. -/
def mapDelete {κ β : Type} [DecidableEq κ] : List (κ × β) → κ → List (κ × β)
  | [], _ => []
  | (k', v') :: rest, k => if k' = k then rest else (k', v') :: mapDelete rest k

/-- JS `String.prototype.startsWith`. -/
def strStartsWith (s p : String) : Bool := p.data.isPrefixOf s.data

/-- JS `String.prototype.includes` (substring containment). -/
def charsIncl (needle : List Char) : List Char → Bool
  | [] => needle.isEmpty
  | c :: cs => needle.isPrefixOf (c :: cs) || charsIncl needle cs

/-- JS `String.prototype.includes` on `String`. -/
def strIncludes (s sub : String) : Bool := charsIncl sub.data s.data

/-! ### The stable sort used by eviction and space reclaim

`Array.prototype.sort` with comparator `(a, b) => f(a) - f(b)` is, per the
ECMAScript specification, the stable ascending sort by `f`.  We realize it as
a left-to-right stable insertion sort. -/

/-- Insert `x` after every element whose sort key is `≤ f x`. -/
def insertByKey {β : Type} (f : β → Int) (x : β) : List β → List β
  | [] => [x]
  | y :: ys => if f y ≤ f x then y :: insertByKey f x ys else x :: y :: ys

/-- Stable ascending sort by the integer key `f`. -/
def sortByKey {β : Type} (f : β → Int) (l : List β) : List β :=
  l.foldl (fun acc x => insertByKey f x acc) []

/-! ### `CacheManager` operations -/

/-- `CacheManager.isExpired`: `Date.now() - entry.timestamp > entry.ttl`. -/
def isExpired {α : Type} (now : Int) (e : CacheEntry α) : Bool :=
  decide (now - e.timestamp > e.ttl)

/-- Expiry test applied to a tier-2 record inside `clearStorageSpace`: a
record that fails to parse lands in the removal list via the `catch`. -/
def storedExpired {α : Type} (now : Int) : StoredRec α → Bool
  | .ok e => isExpired now e
  | .bad => true

/-- `CacheManager.evictOldestEntries`: sort the tier-1 entries by ascending
`timestamp` (stable), delete the first `Math.floor(maxMemoryEntries * 0.2)`
of them, and count one eviction per deletion. -/
def evictOldestEntries {α : Type} (s : CacheState α) : CacheState α :=
  let sorted := sortByKey (fun kv => kv.2.timestamp) s.memoryCache
  let toEvict := sorted.take (s.maxMemoryEntries * 2 / 10)
  { s with
    memoryCache := toEvict.foldl (fun m kv => mapDelete m kv.1) s.memoryCache
    evictions := s.evictions + toEvict.length }

/-- The storage-fallback half of `CacheManager.get` (lines 58–80).  Reading a
`bad` record models `JSON.parse` throwing: the `catch` only logs, the record
is left in place, and control falls through to the miss path. -/
def getFromStorage {α : Type} (now : Int) (fullKey : String) (s : CacheState α) :
    Option α × CacheState α :=
  match s.storage with
  | some st =>
    match mapGet st fullKey with
    | some (.ok e) =>
      if isExpired now e then
        (none, { s with storage := some (mapDelete st fullKey), misses := s.misses + 1 })
      else
        (e.data, { s with memoryCache := mapSet s.memoryCache fullKey e, hits := s.hits + 1 })
    | some .bad => (none, { s with misses := s.misses + 1 })
    | none => (none, { s with misses := s.misses + 1 })
  | none => (none, { s with misses := s.misses + 1 })

/-- `CacheManager.get`. -/
def get {α : Type} (now : Int) (key : String) (s : CacheState α) :
    Option α × CacheState α :=
  let fullKey := s.storagePrefix ++ key
  match mapGet s.memoryCache fullKey with
  | some e =>
    if isExpired now e then getFromStorage now fullKey s
    else (e.data, { s with hits := s.hits + 1 })
  | none => getFromStorage now fullKey s

/-- `CacheManager.clearStorageSpace`: remove every prefix-owned tier-2 record
that is expired or fails to parse; if none qualified, remove the oldest
`Math.floor(n * 0.1)` prefix-owned records by `timestamp`. -/
def clearStorageSpace {α : Type} (now : Int) (sp : String)
    (st : List (String × StoredRec α)) : List (String × StoredRec α) :=
  let expiredKeys :=
    (st.filter (fun kv => strStartsWith kv.1 sp && storedExpired now kv.2)).map (·.1)
  if expiredKeys.isEmpty then
    let entries := (st.filter (fun kv => strStartsWith kv.1 sp)).filterMap
      (fun kv => match kv.2 with | .ok e => some (kv.1, e.timestamp) | .bad => none)
    let toRemove := ((sortByKey (·.2) entries).take (entries.length / 10)).map (·.1)
    st.filter (fun kv => !(toRemove.contains kv.1))
  else
    st.filter (fun kv => !(expiredKeys.contains kv.1))

/-- The entry object built at the top of `CacheManager.set`. -/
def entryOf {α : Type} (now : Int) (data : Option α) (opts : CacheOptions) :
    CacheEntry α :=
  { data := data, timestamp := now, ttl := opts.ttl, metadata := opts.metadata }

/-- The full key `storagePrefix + (storageKey || key)` used by `set`. -/
def fullKeyOf {α : Type} (s : CacheState α) (opts : CacheOptions) (key : String) :
    String :=
  s.storagePrefix ++ (opts.storageKey.getD key)

/-- Lines 103–110 of `set`: write the tier-1 entry, count the set, and
enforce the memory capacity. -/
def setMemoryPhase {α : Type} (now : Int) (key : String) (data : Option α)
    (opts : CacheOptions) (s : CacheState α) : CacheState α :=
  let s1 := { s with
    memoryCache := mapSet s.memoryCache (fullKeyOf s opts key) (entryOf now data opts)
    sets := s.sets + 1 }
  if s1.memoryCache.length > s1.maxMemoryEntries then evictOldestEntries s1 else s1

/-- Lines 112–128 of `set`: the tier-2 write with its quota-recovery
`catch`.  `w1` is the outcome of the first `setItem` attempt, `w2` the
outcome of the retry performed after a quota-exceeded failure. -/
def setStoragePhase {α : Type} (now : Int) (fullKey : String) (entry : CacheEntry α)
    (w1 w2 : WriteOutcome) (sp : String) (s : CacheState α) : CacheState α :=
  match s.storage with
  | some st =>
    match w1 with
    | .success => { s with storage := some (mapSet st fullKey (.ok entry)) }
    | .quotaExceeded =>
      let st' := clearStorageSpace now sp st
      match w2 with
      | .success => { s with storage := some (mapSet st' fullKey (.ok entry)) }
      | _ => { s with storage := some st' }
    | .otherFailure => s
  | none => s

/-- `CacheManager.set`. -/
def set {α : Type} (now : Int) (key : String) (data : Option α)
    (opts : CacheOptions) (w1 w2 : WriteOutcome) (s : CacheState α) : CacheState α :=
  let s2 := setMemoryPhase now key data opts s
  if opts.persistToStorage then
    setStoragePhase now (fullKeyOf s opts key) (entryOf now data opts) w1 w2
      s.storagePrefix s2
  else s2

/-- `CacheManager.clear`: empty tier 1 and remove every tier-2 key carrying
the store's prefix. -/
def clear {α : Type} (s : CacheState α) : CacheState α :=
  { s with
    memoryCache := []
    storage := s.storage.map (fun st => st.filter (fun kv => !(strStartsWith kv.1 s.storagePrefix))) }

/-- `CacheManager.clearByPrefix`. -/
def clearByPrefix {α : Type} (pre : String) (s : CacheState α) : CacheState α :=
  let fullPrefix := s.storagePrefix ++ pre
  { s with
    memoryCache := s.memoryCache.filter (fun kv => !(strStartsWith kv.1 fullPrefix))
    storage := s.storage.map (fun st => st.filter (fun kv => !(strStartsWith kv.1 fullPrefix))) }

/-- `CacheManager.touch`: refresh a live tier-1 entry's `timestamp` (and,
when a truthy `newTtl` is given, its `ttl`) in place; tier 2 is untouched. -/
def touch {α : Type} (now : Int) (key : String) (newTtl : Option Int)
    (s : CacheState α) : Bool × CacheState α :=
  match mapGet s.memoryCache (s.storagePrefix ++ key) with
  | some e =>
    if isExpired now e then (false, s)
    else
      let ttl' := match newTtl with
        | some t => if t = 0 then e.ttl else t
        | none => e.ttl
      (true, { s with
        memoryCache := mapSet s.memoryCache (s.storagePrefix ++ key)
          { e with timestamp := now, ttl := ttl' } })
  | none => (false, s)

/-- `CacheManager.getOrSet`.  The external fetcher is modelled by the value
`fetched` it would resolve to; the returned state records whether `set` ran. -/
def getOrSet {α : Type} (now : Int) (key : String) (fetched : Option α)
    (opts : CacheOptions) (w1 w2 : WriteOutcome) (s : CacheState α) :
    Option α × CacheState α :=
  match get now key s with
  | (some v, s1) => (some v, s1)
  | (none, s1) => (fetched, set now key fetched opts w1 w2 s1)

/-! ### `CacheErrorRecovery` (`cacheInvalidation.ts`) -/

/-- `CACHE_KEYS.PREDICTIONS`. -/
def KEY_PREDICTIONS : String := "predictions_"

/-- `CACHE_KEYS.MATCHES`. -/
def KEY_MATCHES : String := "matches_"

/-- The marker substring tested for quota errors. -/
def MSG_QUOTA : String := "QuotaExceededError"

/-- The marker substring tested for serialization errors. -/
def MSG_JSON : String := "JSON"

/-- The first marker substring tested for network errors. -/
def MSG_NETWORK : String := "Network"

/-- The second marker substring tested for network errors. -/
def MSG_FETCH : String := "fetch"

/-- `CacheErrorRecovery.clearCorruptedEntries`: clear the volatile
`predictions_` and `matches_` namespaces (its own `catch` swallows errors). -/
def clearCorruptedEntries {α : Type} (s : CacheState α) : CacheState α :=
  clearByPrefix KEY_MATCHES (clearByPrefix KEY_PREDICTIONS s)

/-- `CacheErrorRecovery.recoverFromError`, classifying on the error message.
Every branch of the `try` body returns `true`; the store operations it calls
trap their own storage errors, so the outer `catch` (which would return
`false`) is unreachable in this model. -/
def recoverFromError {α : Type} (msg : String) (s : CacheState α) :
    Bool × CacheState α :=
  if strIncludes msg MSG_QUOTA then (true, clear s)
  else if strIncludes msg MSG_JSON then (true, clearCorruptedEntries s)
  else if strIncludes msg MSG_NETWORK || strIncludes msg MSG_FETCH then (true, s)
  else (true, clearCorruptedEntries s)

/-! ### Rate limiter (`dataServiceCached.ts`) -/

/-- `RATE_LIMIT_WINDOW` (60 s in milliseconds). -/
def RATE_LIMIT_WINDOW : Int := 60 * 1000

/-- `MAX_REQUESTS_PER_WINDOW`. -/
def MAX_REQUESTS_PER_WINDOW : Nat := 10

/-- The `RateLimitInfo` record returned to callers.  `resetTime` is kept as
an epoch-millisecond instant (the code stores its ISO rendering). -/
structure RateLimitInfo where
  isRateLimited : Bool
  resetTime : Option Int
  remainingRequests : Option Nat
  cooldownMinutes : Option Int
deriving DecidableEq, Repr

/-- `Math.ceil (a / b)` for integers, `b > 0`. -/
def ceilDiv (a b : Int) : Int := -((-a).fdiv b)

/-- The `requestCache` map: the key `\x7b$now\x7d` is the decimal rendering of the
timestamp, so a binding is modelled as the pair (timestamp, count). -/
abbrev RequestCache := List (Int × Nat)

/-- `recordRequest`: bump the count under the current-millisecond key, or
insert a fresh `(now, 1)` binding. -/
def recordRequest (now : Int) : RequestCache → RequestCache
  | [] => [(now, 1)]
  | (t, c) :: rest =>
      if t = now then (t, c + 1) :: rest else (t, c) :: recordRequest now rest

/-- `checkRateLimit`: prune entries older than the window, total the counts
still in the window, and derive the `RateLimitInfo`. -/
def checkRateLimit (now : Int) (rc : RequestCache) : RateLimitInfo × RequestCache :=
  let windowStart := now - RATE_LIMIT_WINDOW
  let pruned := rc.filter (fun e => !(decide (e.1 < windowStart)))
  let recentRequests :=
    pruned.foldl (fun acc e => if windowStart ≤ e.1 then acc + e.2 else acc) 0
  if MAX_REQUESTS_PER_WINDOW ≤ recentRequests then
    let oldestRequest := pruned.foldl (fun acc e => if e.1 < acc then e.1 else acc) now
    let resetTime := oldestRequest + RATE_LIMIT_WINDOW
    ({ isRateLimited := true
       resetTime := some resetTime
       remainingRequests := some 0
       cooldownMinutes := some (ceilDiv (resetTime - now) (60 * 1000)) }, pruned)
  else
    ({ isRateLimited := false
       resetTime := none
       remainingRequests := some (MAX_REQUESTS_PER_WINDOW - recentRequests)
       cooldownMinutes := none }, pruned)

/-- Specification-side formula: the request-cache entries whose timestamp is
not older than `now - windowSize`. -/
def prune (now : Int) (rc : RequestCache) : RequestCache :=
  rc.filter (fun e => !(decide (e.1 < now - RATE_LIMIT_WINDOW)))

/-- Specification-side formula: the number of requests recorded inside the
trailing window at `now`. -/
def recentTotal (now : Int) (rc : RequestCache) : Nat :=
  ((prune now rc).map (·.2)).sum

/-! ### Concrete instances used by examples and witnesses -/

/-- The default `storagePrefix` of the application's singleton store. -/
def DEFAULT_PREFIX : String := "sportykoko_cache_"

/-- A freshly constructed store over `Nat` payloads with an available,
initially empty tier-2 backend. -/
def initState (maxE : Nat) : CacheState Nat :=
  { memoryCache := [], storage := some [], hits := 0, misses := 0, sets := 0,
    evictions := 0, maxMemoryEntries := maxE, storagePrefix := DEFAULT_PREFIX }

/-- `n` sequential `set` calls on distinct keys `"0" … "n-1"` at times
`0 … n-1`, all tier-2 writes succeeding. -/
def seqSets (n maxE : Nat) : CacheState Nat :=
  (List.range n).foldl
    (fun s i => set (Int.ofNat i) (toString i) (some i) {} .success .success s)
    (initState maxE)

/-- Example logical key `"predictions_a"`. -/
def kPredA : String := KEY_PREDICTIONS ++ "a"

/-- Example logical key `"predictions_b"`. -/
def kPredB : String := KEY_PREDICTIONS ++ "b"

/-- Example logical key `"matches_a"`. -/
def kMatchA : String := KEY_MATCHES ++ "a"

/-- A generic example logical key. -/
def kX : String := "x"

/-- Example key of a corrupted tier-2 record. -/
def kC5 : String := "corrupt"

/-- A store whose tier 2 holds one unparseable record and nothing else. -/
def sC5 : CacheState Nat :=
  { memoryCache := [], storage := some [(DEFAULT_PREFIX ++ kC5, .bad)],
    hits := 0, misses := 0, sets := 0, evictions := 0,
    maxMemoryEntries := 1000, storagePrefix := DEFAULT_PREFIX }

/-- A live entry whose payload is a cached `null`. -/
def eC9 : CacheEntry Nat := { data := none, timestamp := 0, ttl := 1000, metadata := none }

/-- A store whose tier 1 holds one live entry with a `null` payload. -/
def sC9 : CacheState Nat :=
  { memoryCache := [(DEFAULT_PREFIX ++ kX, eC9)], storage := some [],
    hits := 0, misses := 0, sets := 0, evictions := 0,
    maxMemoryEntries := 1000, storagePrefix := DEFAULT_PREFIX }

/-- A live entry with payload `5`, written at time 0 with a 1000 ms TTL. -/
def eC8 : CacheEntry Nat := { data := some 5, timestamp := 0, ttl := 1000, metadata := none }

/-- A store holding `eC8` in both tiers. -/
def sC8 : CacheState Nat :=
  { memoryCache := [(DEFAULT_PREFIX ++ kX, eC8)],
    storage := some [(DEFAULT_PREFIX ++ kX, .ok eC8)],
    hits := 0, misses := 0, sets := 0, evictions := 0,
    maxMemoryEntries := 1000, storagePrefix := DEFAULT_PREFIX }

/-- An error message classified as quota-exceeded. -/
def mQuota : String := "Storage " ++ MSG_QUOTA ++ ": quota hit"

/-- The request cache after ten `recordRequest` calls at times 0…9. -/
def rcTen : RequestCache :=
  (List.range 10).foldl (fun rc i => recordRequest (Int.ofNat i) rc) []

/-- The state after `set(predictions_a, 1)`, `set(predictions_b, 2)`,
`set(matches_a, 3)` on a fresh store. -/
def sC6 : CacheState Nat :=
  set 2 kMatchA (some 3) {} .success .success
    (set 1 kPredB (some 2) {} .success .success
      (set 0 kPredA (some 1) {} .success .success (initState 1000)))

/-- The `timestamp` recovered from a stored record (`entry.timestamp || 0`
in `clearStorageSpace`). -/
def storedTs {α : Type} : StoredRec α → Int
  | .ok e => e.timestamp
  | .bad => 0

/-! ## Helper lemmas: association-list primitives -/

section MapLemmas

variable {κ β : Type} [DecidableEq κ]

theorem mapGet_mapSet_self (m : List (κ × β)) (k : κ) (v : β) :
    mapGet (mapSet m k v) k = some v := by
  induction m with
  | nil => simp [mapGet, mapSet]
  | cons hd tl ih =>
    obtain ⟨k', v'⟩ := hd
    by_cases h : k' = k <;> simp [mapGet, mapSet, h, ih]

theorem mapGet_mapSet_ne (m : List (κ × β)) {k k' : κ} (v : β) (h : k' ≠ k) :
    mapGet (mapSet m k v) k' = mapGet m k' := by
  have h' : k ≠ k' := Ne.symm h
  induction m with
  | nil => simp [mapGet, mapSet, h']
  | cons hd tl ih =>
    obtain ⟨k₀, v₀⟩ := hd
    by_cases h₀ : k₀ = k
    · subst h₀
      simp [mapGet, mapSet, h']
    · simp only [mapSet, if_neg h₀]
      by_cases h₁ : k₀ = k' <;> simp [mapGet, h₁, ih]

theorem mapSet_of_not_mem (m : List (κ × β)) {k : κ} (v : β)
    (h : k ∉ m.map Prod.fst) : mapSet m k v = m ++ [(k, v)] := by
  induction m with
  | nil => simp [mapSet]
  | cons hd tl ih =>
    obtain ⟨k₀, v₀⟩ := hd
    simp only [List.map_cons, List.mem_cons, not_or] at h
    have hne : k₀ ≠ k := Ne.symm h.1
    simp [mapSet, hne, ih h.2]

theorem length_mapSet_of_mem (m : List (κ × β)) {k : κ} (v : β)
    (h : k ∈ m.map Prod.fst) : (mapSet m k v).length = m.length := by
  induction m with
  | nil => simp at h
  | cons hd tl ih =>
    obtain ⟨k₀, v₀⟩ := hd
    simp only [List.map_cons, List.mem_cons] at h
    by_cases h₀ : k₀ = k
    · simp [mapSet, h₀]
    · simp only [mapSet, if_neg h₀, List.length_cons]
      rcases h with h | h
      · exact absurd h.symm h₀
      · rw [ih h]

theorem keys_mapSet_of_mem (m : List (κ × β)) {k : κ} (v : β)
    (h : k ∈ m.map Prod.fst) :
    (mapSet m k v).map Prod.fst = m.map Prod.fst := by
  induction m with
  | nil => simp at h
  | cons hd tl ih =>
    obtain ⟨k₀, v₀⟩ := hd
    simp only [List.map_cons, List.mem_cons] at h
    by_cases h₀ : k₀ = k
    · subst h₀; simp [mapSet]
    · rcases h with h | h
      · exact absurd h.symm h₀
      · simp [mapSet, h₀, ih h]

theorem nodup_keys_mapSet (m : List (κ × β)) (k : κ) (v : β)
    (h : (m.map Prod.fst).Nodup) : ((mapSet m k v).map Prod.fst).Nodup := by
  by_cases hk : k ∈ m.map Prod.fst
  · rw [keys_mapSet_of_mem m v hk]; exact h
  · rw [mapSet_of_not_mem m v hk]
    simp only [List.map_append, List.map_cons, List.map_nil]
    exact List.Nodup.append h (List.nodup_singleton k) (by
      intro a ha hb
      simp only [List.mem_singleton] at hb
      subst hb
      exact hk ha)

theorem mapGet_eq_none_iff (m : List (κ × β)) (k : κ) :
    mapGet m k = none ↔ k ∉ m.map Prod.fst := by
  induction m with
  | nil => simp [mapGet]
  | cons hd tl ih =>
    obtain ⟨k₀, v₀⟩ := hd
    by_cases h₀ : k₀ = k
    · subst h₀; simp [mapGet]
    · simp [mapGet, h₀, ih, Ne.symm h₀]

theorem mem_of_mapGet_eq_some {m : List (κ × β)} {k : κ} {v : β}
    (h : mapGet m k = some v) : (k, v) ∈ m := by
  induction m with
  | nil => simp [mapGet] at h
  | cons hd tl ih =>
    obtain ⟨k₀, v₀⟩ := hd
    by_cases h₀ : k₀ = k
    · subst h₀
      have hv : v₀ = v := by simpa [mapGet] using h
      subst hv
      exact List.mem_cons_self _ _
    · simp only [mapGet, if_neg h₀] at h
      exact List.mem_cons_of_mem _ (ih h)

theorem mapDelete_sublist (m : List (κ × β)) (k : κ) : mapDelete m k <+ m := by
  induction m with
  | nil => simp [mapDelete]
  | cons hd tl ih =>
    obtain ⟨k₀, v₀⟩ := hd
    by_cases h₀ : k₀ = k
    · simp [mapDelete, h₀]
    · simpa [mapDelete, h₀] using ih.cons₂ (k₀, v₀)

theorem mapGet_mapDelete_ne (m : List (κ × β)) {k k' : κ} (h : k' ≠ k) :
    mapGet (mapDelete m k) k' = mapGet m k' := by
  have h' : k ≠ k' := Ne.symm h
  induction m with
  | nil => simp [mapDelete]
  | cons hd tl ih =>
    obtain ⟨k₀, v₀⟩ := hd
    by_cases h₀ : k₀ = k
    · subst h₀
      simp [mapDelete, mapGet, h']
    · by_cases h₁ : k₀ = k' <;> simp [mapDelete, mapGet, h₀, h₁, h, ih]

theorem length_mapDelete_of_mem (m : List (κ × β)) {k : κ}
    (h : k ∈ m.map Prod.fst) : (mapDelete m k).length + 1 = m.length := by
  induction m with
  | nil => simp at h
  | cons hd tl ih =>
    obtain ⟨k₀, v₀⟩ := hd
    by_cases h₀ : k₀ = k
    · simp [mapDelete, h₀]
    · simp only [List.map_cons, List.mem_cons] at h
      rcases h with h | h
      · exact absurd h.symm h₀
      · simp only [mapDelete, if_neg h₀, List.length_cons]
        rw [← ih h]

theorem mem_keys_mapDelete_of_ne (m : List (κ × β)) {k k' : κ} (h : k' ≠ k) :
    k' ∈ (mapDelete m k).map Prod.fst ↔ k' ∈ m.map Prod.fst := by
  induction m with
  | nil => simp [mapDelete]
  | cons hd tl ih =>
    obtain ⟨k₀, v₀⟩ := hd
    by_cases h₀ : k₀ = k
    · subst h₀
      simp [mapDelete, h]
    · simp [mapDelete, h₀, ih]

theorem mem_mapSet_iff_of_ne (m : List (κ × β)) {k : κ} (v : β)
    {kv : κ × β} (h : kv.1 ≠ k) : kv ∈ mapSet m k v ↔ kv ∈ m := by
  induction m with
  | nil =>
    constructor
    · intro he
      simp only [mapSet, List.mem_singleton] at he
      exact absurd (congrArg Prod.fst he) h
    · intro he
      simp at he
  | cons hd tl ih =>
    obtain ⟨k₀, v₀⟩ := hd
    by_cases h₀ : k₀ = k
    · rw [show mapSet ((k₀, v₀) :: tl) k v = (k, v) :: tl from by simp [mapSet, h₀]]
      simp only [List.mem_cons]
      constructor
      · rintro (he | he)
        · exact absurd (congrArg Prod.fst he) h
        · exact Or.inr he
      · rintro (he | he)
        · exact absurd ((congrArg Prod.fst he).trans h₀) h
        · exact Or.inr he
    · simp [mapSet, h₀, ih]

theorem nodup_keys_mapDelete (m : List (κ × β)) (k : κ)
    (h : (m.map Prod.fst).Nodup) : ((mapDelete m k).map Prod.fst).Nodup :=
  h.sublist ((mapDelete_sublist m k).map Prod.fst)

theorem not_mem_keys_mapDelete_self (m : List (κ × β)) (k : κ)
    (h : (m.map Prod.fst).Nodup) : k ∉ (mapDelete m k).map Prod.fst := by
  induction m with
  | nil => simp [mapDelete]
  | cons hd tl ih =>
    obtain ⟨k₀, v₀⟩ := hd
    simp only [List.map_cons, List.nodup_cons] at h
    by_cases h₀ : k₀ = k
    · subst h₀
      simp only [mapDelete, if_pos rfl]
      exact h.1
    · simp only [mapDelete, if_neg h₀, List.map_cons, List.mem_cons, not_or]
      exact ⟨Ne.symm h₀, ih h.2⟩

theorem mem_mapDelete_iff (m : List (κ × β)) (k : κ) (kv : κ × β)
    (h : (m.map Prod.fst).Nodup) :
    kv ∈ mapDelete m k ↔ kv ∈ m ∧ kv.1 ≠ k := by
  induction m with
  | nil => simp [mapDelete]
  | cons hd tl ih =>
    obtain ⟨k₀, v₀⟩ := hd
    simp only [List.map_cons, List.nodup_cons] at h
    by_cases h₀ : k₀ = k
    · subst h₀
      simp only [mapDelete, if_pos rfl, List.mem_cons]
      constructor
      · intro hm
        refine ⟨Or.inr hm, ?_⟩
        intro hk
        exact h.1 (hk ▸ List.mem_map_of_mem Prod.fst hm)
      · rintro ⟨hm | hm, hk⟩
        · exact absurd (by rw [hm]) hk
        · exact hm
    · simp only [mapDelete, if_neg h₀, List.mem_cons, ih h.2]
      constructor
      · rintro (he | ⟨hm, hk⟩)
        · subst he
          exact ⟨Or.inl rfl, h₀⟩
        · exact ⟨Or.inr hm, hk⟩
      · rintro ⟨he | hm, hk⟩
        · exact Or.inl he
        · exact Or.inr ⟨hm, hk⟩

theorem entry_unique_of_nodup_keys {m : List (κ × β)} {x y : κ × β}
    (h : (m.map Prod.fst).Nodup) (hx : x ∈ m) (hy : y ∈ m) (hk : x.1 = y.1) :
    x = y := by
  induction m with
  | nil => simp at hx
  | cons hd tl ih =>
    simp only [List.map_cons, List.nodup_cons] at h
    rcases List.mem_cons.mp hx with hx' | hx' <;>
      rcases List.mem_cons.mp hy with hy' | hy'
    · rw [hx', hy']
    · exfalso
      exact h.1 (by
        rw [← hx', hk]
        exact List.mem_map_of_mem Prod.fst hy')
    · exfalso
      exact h.1 (by
        rw [← hy', ← hk]
        exact List.mem_map_of_mem Prod.fst hx')
    · exact ih h.2 hx' hy'

theorem mapGet_append_of_not_mem (m : List (κ × β)) {k : κ} (v : β)
    (h : k ∉ m.map Prod.fst) : mapGet (m ++ [(k, v)]) k = some v := by
  induction m with
  | nil => simp [mapGet]
  | cons hd tl ih =>
    obtain ⟨k₀, v₀⟩ := hd
    simp only [List.map_cons, List.mem_cons, not_or] at h
    have hne : k₀ ≠ k := Ne.symm h.1
    simp only [List.cons_append, mapGet, if_neg hne]
    exact ih h.2

end MapLemmas

/-! ## Helper lemmas: the stable sort -/

section SortLemmas

variable {β : Type} (f : β → Int)

theorem insertByKey_perm (x : β) (l : List β) :
    insertByKey f x l ~ x :: l := by
  induction l with
  | nil => simp [insertByKey]
  | cons y ys ih =>
    by_cases h : f y ≤ f x
    · simp only [insertByKey, if_pos h]
      exact (ih.cons y).trans (List.Perm.swap x y ys)
    · simp [insertByKey, if_neg h]

theorem foldl_insertByKey_perm (l acc : List β) :
    (l.foldl (fun a x => insertByKey f x a) acc) ~ acc ++ l := by
  induction l generalizing acc with
  | nil => simp
  | cons x xs ih =>
    calc (x :: xs).foldl (fun a y => insertByKey f y a) acc
        = xs.foldl (fun a y => insertByKey f y a) (insertByKey f x acc) := rfl
      _ ~ insertByKey f x acc ++ xs := ih _
      _ ~ (x :: acc) ++ xs := (insertByKey_perm f x acc).append_right xs
      _ ~ acc ++ x :: xs := List.perm_middle.symm

theorem sortByKey_perm (l : List β) : sortByKey f l ~ l := by
  simpa [sortByKey] using foldl_insertByKey_perm f l []

theorem pairwise_insertByKey (x : β) {l : List β}
    (h : l.Pairwise (fun a b => f a ≤ f b)) :
    (insertByKey f x l).Pairwise (fun a b => f a ≤ f b) := by
  induction l with
  | nil => simp [insertByKey]
  | cons y ys ih =>
    rw [List.pairwise_cons] at h
    by_cases hle : f y ≤ f x
    · rw [insertByKey, if_pos hle, List.pairwise_cons]
      refine ⟨?_, ih h.2⟩
      intro z hz
      rcases List.mem_cons.mp ((insertByKey_perm f x ys).mem_iff.mp hz) with hz | hz
      · rw [hz]; exact hle
      · exact h.1 z hz
    · have hxy : f x ≤ f y := le_of_not_le hle
      rw [insertByKey, if_neg hle, List.pairwise_cons]
      refine ⟨?_, List.pairwise_cons.mpr h⟩
      intro z hz
      rcases List.mem_cons.mp hz with hz | hz
      · rw [hz]; exact hxy
      · exact hxy.trans (h.1 z hz)

theorem sortByKey_sorted (l : List β) :
    (sortByKey f l).Pairwise (fun a b => f a ≤ f b) := by
  suffices h : ∀ acc : List β, acc.Pairwise (fun a b => f a ≤ f b) →
      (l.foldl (fun a x => insertByKey f x a) acc).Pairwise (fun a b => f a ≤ f b) by
    exact h [] (by simp)
  induction l with
  | nil => intro acc hacc; exact hacc
  | cons x xs ih =>
    intro acc hacc
    exact ih _ (pairwise_insertByKey f x hacc)

theorem insertByKey_of_forall_le (x : β) {l : List β}
    (h : ∀ y ∈ l, f y ≤ f x) : insertByKey f x l = l ++ [x] := by
  induction l with
  | nil => simp [insertByKey]
  | cons y ys ih =>
    have hy : f y ≤ f x := h y (List.mem_cons_self _ _)
    simp only [insertByKey, if_pos hy, List.cons_append, List.cons.injEq, true_and]
    exact ih (fun z hz => h z (List.mem_cons_of_mem _ hz))

theorem sortByKey_append_singleton (x : β) {l : List β}
    (h : ∀ y ∈ l, f y ≤ f x) :
    sortByKey f (l ++ [x]) = sortByKey f l ++ [x] := by
  have h1 : sortByKey f (l ++ [x]) = insertByKey f x (sortByKey f l) := by
    simp [sortByKey, List.foldl_append]
  rw [h1]
  exact insertByKey_of_forall_le f x
    (fun y hy => h y ((sortByKey_perm f l).mem_iff.mp hy))

end SortLemmas

/-! ## Helper lemmas: strings and folds -/

theorem strStartsWith_append (a s p : String) :
    strStartsWith (a ++ s) (a ++ p) = strStartsWith s p := by
  simp only [strStartsWith, String.data_append]
  rw [Bool.eq_iff_iff]
  constructor
  · intro h
    rw [ List.isPrefixOf_iff_prefix] at h ⊢
    exact (List.prefix_append_right_inj a.data).mp h
  · intro h
    rw [ List.isPrefixOf_iff_prefix] at h ⊢
    exact (List.prefix_append_right_inj a.data).mpr h

section FoldDelete

variable {κ β γ : Type} [DecidableEq κ] (g : γ → κ)

theorem mapGet_foldl_mapDelete (l : List γ) (m : List (κ × β)) (k : κ)
    (h : ∀ x ∈ l, g x ≠ k) :
    mapGet (l.foldl (fun acc x => mapDelete acc (g x)) m) k = mapGet m k := by
  induction l generalizing m with
  | nil => simp
  | cons x xs ih =>
    simp only [List.foldl_cons]
    rw [ih _ (fun y hy => h y (List.mem_cons_of_mem _ hy))]
    exact mapGet_mapDelete_ne m (fun hk => h x (List.mem_cons_self _ _) hk.symm)

theorem foldl_mapDelete_sublist (l : List γ) (m : List (κ × β)) :
    (l.foldl (fun acc x => mapDelete acc (g x)) m) <+ m := by
  induction l generalizing m with
  | nil => simp
  | cons x xs ih =>
    exact (ih (mapDelete m (g x))).trans (mapDelete_sublist m (g x))

theorem length_foldl_mapDelete (l : List γ) (m : List (κ × β))
    (hnd : (l.map g).Nodup) (hmem : ∀ x ∈ l, g x ∈ m.map Prod.fst) :
    (l.foldl (fun acc x => mapDelete acc (g x)) m).length + l.length = m.length := by
  induction l generalizing m with
  | nil => simp
  | cons x xs ih =>
    simp only [List.map_cons, List.nodup_cons] at hnd
    have hx : g x ∈ m.map Prod.fst := hmem x (List.mem_cons_self _ _)
    have hrest : ∀ y ∈ xs, g y ∈ (mapDelete m (g x)).map Prod.fst := by
      intro y hy
      have hne : g y ≠ g x := fun h => hnd.1 (h ▸ List.mem_map_of_mem g hy)
      exact (mem_keys_mapDelete_of_ne m hne).mpr (hmem y (List.mem_cons_of_mem _ hy))
    have := ih (mapDelete m (g x)) hnd.2 hrest
    have hlen := length_mapDelete_of_mem m hx
    simp only [List.foldl_cons, List.length_cons]
    omega

theorem nodup_keys_foldl_mapDelete (l : List γ) (m : List (κ × β))
    (h : (m.map Prod.fst).Nodup) :
    ((l.foldl (fun acc x => mapDelete acc (g x)) m).map Prod.fst).Nodup :=
  h.sublist ((foldl_mapDelete_sublist g l m).map Prod.fst)

theorem mem_foldl_mapDelete_iff (l : List γ) (m : List (κ × β)) (kv : κ × β)
    (h : (m.map Prod.fst).Nodup) :
    kv ∈ l.foldl (fun acc x => mapDelete acc (g x)) m ↔
      kv ∈ m ∧ ∀ x ∈ l, kv.1 ≠ g x := by
  induction l generalizing m with
  | nil => simp
  | cons x xs ih =>
    simp only [List.foldl_cons]
    rw [ih (mapDelete m (g x)) (nodup_keys_mapDelete m (g x) h)]
    rw [mem_mapDelete_iff m (g x) kv h]
    constructor
    · rintro ⟨⟨hm, hne⟩, hall⟩
      refine ⟨hm, ?_⟩
      intro y hy
      rcases List.mem_cons.mp hy with hy' | hy'
      · rw [hy']; exact hne
      · exact hall y hy'
    · rintro ⟨hm, hall⟩
      exact ⟨⟨hm, hall x (List.mem_cons_self _ _)⟩,
        fun y hy => hall y (List.mem_cons_of_mem _ hy)⟩

end FoldDelete

/-! ## Helper lemmas: the fold-based count and minimum in `checkRateLimit` -/

theorem foldl_condSum (w : Int) (l : List (Int × Nat))
    (h : ∀ e ∈ l, w ≤ e.1) :
    l.foldl (fun acc e => if w ≤ e.1 then acc + e.2 else acc) 0
      = (l.map (·.2)).sum := by
  suffices hgen : ∀ acc : Nat,
      l.foldl (fun acc e => if w ≤ e.1 then acc + e.2 else acc) acc
        = acc + (l.map (·.2)).sum by
    simpa using hgen 0
  induction l with
  | nil => intro acc; simp
  | cons x xs ih =>
    intro acc
    have hx : w ≤ x.1 := h x (List.mem_cons_self _ _)
    simp only [List.foldl_cons, if_pos hx, List.map_cons, List.sum_cons]
    rw [ih (fun e he => h e (List.mem_cons_of_mem _ he)) (acc + x.2)]
    omega

theorem foldl_min_le (l : List (Int × Nat)) (init : Int) :
    l.foldl (fun acc e => if e.1 < acc then e.1 else acc) init ≤ init ∧
    ∀ e ∈ l, l.foldl (fun acc e => if e.1 < acc then e.1 else acc) init ≤ e.1 := by
  induction l generalizing init with
  | nil => simp
  | cons x xs ih =>
    simp only [List.foldl_cons]
    set init' := if x.1 < init then x.1 else init with hinit'
    have h1 : init' ≤ init := by
      rw [hinit']; split <;> omega
    have h2 : init' ≤ x.1 := by
      rw [hinit']; split <;> omega
    obtain ⟨ha, hb⟩ := ih init'
    refine ⟨ha.trans h1, ?_⟩
    intro e he
    rcases List.mem_cons.mp he with he' | he'
    · rw [he']; exact ha.trans h2
    · exact hb e he'

theorem foldl_min_mem (l : List (Int × Nat)) (init : Int) :
    l.foldl (fun acc e => if e.1 < acc then e.1 else acc) init = init ∨
    l.foldl (fun acc e => if e.1 < acc then e.1 else acc) init ∈ l.map (·.1) := by
  induction l generalizing init with
  | nil => simp
  | cons x xs ih =>
    simp only [List.foldl_cons, List.map_cons, List.mem_cons]
    by_cases hc : x.1 < init
    · rw [if_pos hc]
      rcases ih x.1 with h | h
      · exact Or.inr (Or.inl h)
      · exact Or.inr (Or.inr h)
    · rw [if_neg hc]
      rcases ih init with h | h
      · exact Or.inl h
      · exact Or.inr (Or.inr h)

/-! ## Helper lemmas: the cache operations -/

section CacheLemmas

variable {α : Type}

theorem setStoragePhase_memoryCache (now : Int) (fk : String) (e : CacheEntry α)
    (w1 w2 : WriteOutcome) (sp : String) (s : CacheState α) :
    (setStoragePhase now fk e w1 w2 sp s).memoryCache = s.memoryCache := by
  cases hs : s.storage <;> cases w1 <;> cases w2 <;>
    simp [setStoragePhase, hs]

theorem setStoragePhase_metrics (now : Int) (fk : String) (e : CacheEntry α)
    (w1 w2 : WriteOutcome) (sp : String) (s : CacheState α) :
    (setStoragePhase now fk e w1 w2 sp s).hits = s.hits ∧
    (setStoragePhase now fk e w1 w2 sp s).misses = s.misses ∧
    (setStoragePhase now fk e w1 w2 sp s).sets = s.sets ∧
    (setStoragePhase now fk e w1 w2 sp s).evictions = s.evictions ∧
    (setStoragePhase now fk e w1 w2 sp s).maxMemoryEntries = s.maxMemoryEntries ∧
    (setStoragePhase now fk e w1 w2 sp s).storagePrefix = s.storagePrefix := by
  cases hs : s.storage <;> cases w1 <;> cases w2 <;>
    simp [setStoragePhase, hs]

theorem setMemoryPhase_storage (now : Int) (key : String) (data : Option α)
    (opts : CacheOptions) (s : CacheState α) :
    (setMemoryPhase now key data opts s).storage = s.storage := by
  unfold setMemoryPhase
  dsimp only
  split <;> simp [evictOldestEntries]

theorem setMemoryPhase_config (now : Int) (key : String) (data : Option α)
    (opts : CacheOptions) (s : CacheState α) :
    (setMemoryPhase now key data opts s).hits = s.hits ∧
    (setMemoryPhase now key data opts s).misses = s.misses ∧
    (setMemoryPhase now key data opts s).sets = s.sets + 1 ∧
    (setMemoryPhase now key data opts s).maxMemoryEntries = s.maxMemoryEntries ∧
    (setMemoryPhase now key data opts s).storagePrefix = s.storagePrefix := by
  unfold setMemoryPhase
  dsimp only
  split <;> simp [evictOldestEntries]

/-- The entry just written by the memory phase survives the capacity
eviction, provided the state is sane: no stored timestamp lies in the
future and the capacity bound held before the write. -/
theorem mapGet_setMemoryPhase_self (now : Int) (key : String) (data : Option α)
    (opts : CacheOptions) (s : CacheState α)
    (hts : ∀ kv ∈ s.memoryCache, kv.2.timestamp ≤ now)
    (hlen : s.memoryCache.length ≤ s.maxMemoryEntries) :
    mapGet (setMemoryPhase now key data opts s).memoryCache (fullKeyOf s opts key)
      = some (entryOf now data opts) := by
  set fk := fullKeyOf s opts key with hfk
  set e : CacheEntry α := entryOf now data opts with he
  by_cases hmem : fk ∈ s.memoryCache.map Prod.fst
  · have hlen1 : (mapSet s.memoryCache fk e).length = s.memoryCache.length :=
      length_mapSet_of_mem s.memoryCache e hmem
    have hcond : ¬ ((mapSet s.memoryCache fk e).length > s.maxMemoryEntries) := by
      omega
    unfold setMemoryPhase
    rw [if_neg (by simpa using hcond)]
    exact mapGet_mapSet_self s.memoryCache fk e
  · have hms : mapSet s.memoryCache fk e = s.memoryCache ++ [(fk, e)] :=
      mapSet_of_not_mem s.memoryCache e hmem
    by_cases hcond : (mapSet s.memoryCache fk e).length > s.maxMemoryEntries
    · unfold setMemoryPhase
      rw [if_pos (by simpa using hcond)]
      unfold evictOldestEntries
      simp only
      rw [hms]
      have hsorted : sortByKey (fun kv => kv.2.timestamp) (s.memoryCache ++ [(fk, e)])
          = sortByKey (fun kv => kv.2.timestamp) s.memoryCache ++ [(fk, e)] := by
        refine sortByKey_append_singleton _ (fk, e) ?_
        intro y hy
        exact hts y hy
      rw [hsorted]
      have hq : s.maxMemoryEntries * 2 / 10 ≤
          (sortByKey (fun kv => kv.2.timestamp) s.memoryCache).length := by
        have h1 : s.maxMemoryEntries * 2 / 10 ≤ s.maxMemoryEntries := by
          calc s.maxMemoryEntries * 2 / 10 ≤ s.maxMemoryEntries * 10 / 10 :=
                Nat.div_le_div_right (Nat.mul_le_mul_left _ (by omega))
            _ = s.maxMemoryEntries := Nat.mul_div_cancel _ (by omega)
        have h2 := (sortByKey_perm (fun kv : String × CacheEntry α => kv.2.timestamp)
          s.memoryCache).length_eq
        rw [hms] at hcond
        simp only [List.length_append, List.length_cons, List.length_nil] at hcond
        omega
      rw [List.take_append_of_le_length hq]
      rw [mapGet_foldl_mapDelete]
      · rw [← hms]
        exact mapGet_mapSet_self s.memoryCache fk e
      · intro x hx hk
        have hx' : x ∈ s.memoryCache :=
          (sortByKey_perm (fun kv : String × CacheEntry α => kv.2.timestamp)
            s.memoryCache).mem_iff.mp (List.mem_of_mem_take hx)
        exact hmem (hk ▸ List.mem_map_of_mem Prod.fst hx')
    · unfold setMemoryPhase
      rw [if_neg (by simpa using hcond)]
      exact mapGet_mapSet_self s.memoryCache fk e

/-- `get` on a live tier-1 entry: a hit returning the entry's payload. -/
theorem get_of_live_mem {now : Int} {key : String} {s : CacheState α}
    {e : CacheEntry α}
    (h : mapGet s.memoryCache (s.storagePrefix ++ key) = some e)
    (hl : isExpired now e = false) :
    get now key s = (e.data, { s with hits := s.hits + 1 }) := by
  simp [get, h, hl]

end CacheLemmas

/-! ## Claim C5 -/

/-- C5, counterexample to the claim as stated: on a store whose tier 2 holds
one unparseable record under key `kC5` (and tier 1 is empty), `get` does
return a miss, but the corrupted record is NOT removed from the persistent
store — it is still there after the read, contrary to the claimed
eviction. -/
theorem C5_counterexample :
    (get 0 kC5 sC5).1 = none ∧
    (get 0 kC5 sC5).2.storage = some [(DEFAULT_PREFIX ++ kC5, StoredRec.bad)] := by
  constructor
  · decide
  · decide

/-- C5 (amended): for every key whose tier-2 stored record fails to parse on
read (and which has no live tier-1 entry), `get` returns a miss without
throwing, counts one miss, and leaves the store — in particular the
offending tier-2 record — completely unchanged (the record is not
evicted; only expired-but-parseable records are removed on read). -/
theorem C5_corrupt_record_soft_miss {α : Type} (now : Int) (key : String)
    (s : CacheState α) (st : List (String × StoredRec α))
    (hmem : ∀ e, mapGet s.memoryCache (s.storagePrefix ++ key) = some e →
      isExpired now e = true)
    (hst : s.storage = some st)
    (hbad : mapGet st (s.storagePrefix ++ key) = some .bad) :
    get now key s = (none, { s with misses := s.misses + 1 }) := by
  cases hm : mapGet s.memoryCache (s.storagePrefix ++ key) with
  | none => simp [get, hm, getFromStorage, hst, hbad]
  | some e =>
    have hex := hmem e hm
    simp [get, hm, hex, getFromStorage, hst, hbad]

/-- Witness for C5: the amended theorem applied to the concrete corrupted
store `sC5`. -/
theorem C5_witness :
    get 0 kC5 sC5 = (none, { sC5 with misses := sC5.misses + 1 }) :=
  C5_corrupt_record_soft_miss 0 kC5 sC5 [(DEFAULT_PREFIX ++ kC5, .bad)]
    (fun e he => by simp [sC5, mapGet] at he) (by decide) (by decide)

/-! ## Claim C8 -/

/-- C8: a successful `touch(key, newTtl?)` mutates only the tier-1 entry —
it returns `true`, performs no tier-2 write (the storage component is
untouched, so the persisted record keeps its original `timestamp` and
`ttl`), leaves the metrics alone, replaces the tier-1 entry's `timestamp`
with `now` (and its `ttl` with `newTtl` when a nonzero `newTtl` is given),
and leaves every other tier-1 entry unchanged. -/
theorem C8_touch_mutates_only_tier1 {α : Type} (now : Int) (key : String)
    (newTtl : Option Int) (s : CacheState α) (e : CacheEntry α)
    (h : mapGet s.memoryCache (s.storagePrefix ++ key) = some e)
    (hl : isExpired now e = false) :
    (touch now key newTtl s).1 = true ∧
    (touch now key newTtl s).2.storage = s.storage ∧
    (touch now key newTtl s).2.hits = s.hits ∧
    (touch now key newTtl s).2.misses = s.misses ∧
    (touch now key newTtl s).2.sets = s.sets ∧
    (touch now key newTtl s).2.evictions = s.evictions ∧
    mapGet (touch now key newTtl s).2.memoryCache (s.storagePrefix ++ key)
      = some { e with
               timestamp := now,
               ttl := (match newTtl with
                       | some t => if t = 0 then e.ttl else t
                       | none => e.ttl) } ∧
    ∀ kv : String × CacheEntry α, kv.1 ≠ s.storagePrefix ++ key →
      (kv ∈ (touch now key newTtl s).2.memoryCache ↔ kv ∈ s.memoryCache) := by
  have ht : touch now key newTtl s =
      (true, { s with
        memoryCache := mapSet s.memoryCache (s.storagePrefix ++ key)
          { e with
            timestamp := now,
            ttl := (match newTtl with
                    | some t => if t = 0 then e.ttl else t
                    | none => e.ttl) } }) := by
    simp [touch, h, hl]
  rw [ht]
  refine ⟨rfl, rfl, rfl, rfl, rfl, rfl, mapGet_mapSet_self _ _ _, ?_⟩
  intro kv hkv
  exact mem_mapSet_iff_of_ne s.memoryCache _ hkv

/-- Witness for C8: touching `kX` in `sC8` with a new TTL of 500 succeeds,
leaves tier 2 (which holds the original record) unchanged, and rewrites the
tier-1 entry. -/
theorem C8_witness :
    (touch 1 kX (some 500) sC8).1 = true ∧
    (touch 1 kX (some 500) sC8).2.storage = sC8.storage ∧
    mapGet (touch 1 kX (some 500) sC8).2.memoryCache (sC8.storagePrefix ++ kX)
      = some { eC8 with timestamp := 1, ttl := 500 } := by
  have h := C8_touch_mutates_only_tier1 1 kX (some 500) sC8 eC8
    (by decide) (by decide)
  exact ⟨h.1, h.2.1, by simpa using h.2.2.2.2.2.2.1⟩

/-! ## Claim C9 -/

/-- C9: a cached `null` payload is indistinguishable from a miss at the
public interface.  If the tier-1 entry for `key` is live but carries a
`null` (`none`) payload, `get` counts a hit yet returns the miss sentinel
`none`, and `getOrSet` therefore invokes the fetcher and re-stores its
result (the returned state is exactly `set` applied after the `get`). -/
theorem C9_cached_null_reads_as_miss {α : Type} (now : Int) (key : String)
    (s : CacheState α) (e : CacheEntry α)
    (h : mapGet s.memoryCache (s.storagePrefix ++ key) = some e)
    (hdata : e.data = none)
    (hl : isExpired now e = false) :
    get now key s = (none, { s with hits := s.hits + 1 }) ∧
    ∀ (fetched : Option α) (opts : CacheOptions) (w1 w2 : WriteOutcome),
      getOrSet now key fetched opts w1 w2 s
        = (fetched, set now key fetched opts w1 w2 { s with hits := s.hits + 1 }) := by
  have hget : get now key s = (none, { s with hits := s.hits + 1 }) := by
    rw [get_of_live_mem h hl, hdata]
  refine ⟨hget, ?_⟩
  intro fetched opts w1 w2
  simp [getOrSet, hget]

/-- Witness for C9: reading the live-but-null entry of `sC9` counts a hit
and returns `none`, and `getOrSet` with a fetcher resolving to `7`
re-fetches and re-stores. -/
theorem C9_witness :
    get 0 kX sC9 = (none, { sC9 with hits := sC9.hits + 1 }) ∧
    getOrSet 0 kX (some 7) {} .success .success sC9
      = (some 7, set 0 kX (some 7) {} .success .success
          { sC9 with hits := sC9.hits + 1 }) := by
  have h := C9_cached_null_reads_as_miss 0 kX sC9 eC9
    (by decide) (by decide) (by decide)
  exact ⟨h.1, h.2 (some 7) {} .success .success⟩

/-! ## Claim C7 -/

/-- C7: `recoverFromError` classifies by inspecting the error's message and
always reports success: a quota-exceeded error force-flushes the entire
store (tier 1 emptied, every prefix-owned tier-2 key removed); a
serialization error clears only the volatile `predictions_` and `matches_`
namespaces; a transient network error modifies no cache state; any other
error gets the same corrupted-entry cleanup.  The cleanup traps its own
storage errors, so in this model recovery never returns `false` (the
claim's cleanup-throws case is unreachable).  The last two conjuncts
characterize the flush and the namespace cleanup. -/
theorem C7_recover_classification {α : Type} (msg : String) (s : CacheState α) :
    (recoverFromError msg s).1 = true ∧
    (strIncludes msg MSG_QUOTA = true →
      (recoverFromError msg s).2.memoryCache = [] ∧
      ∀ st, s.storage = some st →
        ∃ st', (recoverFromError msg s).2.storage = some st' ∧
          ∀ kv, kv ∈ st' ↔ kv ∈ st ∧ strStartsWith kv.1 s.storagePrefix = false) ∧
    (strIncludes msg MSG_QUOTA = false → strIncludes msg MSG_JSON = true →
      (recoverFromError msg s).2 = clearCorruptedEntries s) ∧
    (strIncludes msg MSG_QUOTA = false → strIncludes msg MSG_JSON = false →
      (strIncludes msg MSG_NETWORK = true ∨ strIncludes msg MSG_FETCH = true) →
      (recoverFromError msg s).2 = s) ∧
    (strIncludes msg MSG_QUOTA = false → strIncludes msg MSG_JSON = false →
      strIncludes msg MSG_NETWORK = false → strIncludes msg MSG_FETCH = false →
      (recoverFromError msg s).2 = clearCorruptedEntries s) ∧
    (∀ kv, kv ∈ (clearCorruptedEntries s).memoryCache ↔
      kv ∈ s.memoryCache ∧
      strStartsWith kv.1 (s.storagePrefix ++ KEY_PREDICTIONS) = false ∧
      strStartsWith kv.1 (s.storagePrefix ++ KEY_MATCHES) = false) ∧
    (∀ st, s.storage = some st →
      ∃ st', (clearCorruptedEntries s).storage = some st' ∧
        ∀ kv, kv ∈ st' ↔ kv ∈ st ∧
          strStartsWith kv.1 (s.storagePrefix ++ KEY_PREDICTIONS) = false ∧
          strStartsWith kv.1 (s.storagePrefix ++ KEY_MATCHES) = false) := by
  refine ⟨?_, ?_, ?_, ?_, ?_, ?_, ?_⟩
  · unfold recoverFromError
    split
    · rfl
    · split
      · rfl
      · split
        · rfl
        · rfl
  · intro hq
    simp only [recoverFromError, hq, if_true]
    refine ⟨rfl, ?_⟩
    intro st hst
    refine ⟨st.filter (fun kv => !(strStartsWith kv.1 s.storagePrefix)), ?_, ?_⟩
    · simp [clear, hst]
    · intro kv
      simp [List.mem_filter]
  · intro hq hj
    simp [recoverFromError, hq, hj]
  · intro hq hj hnf
    have hor : (strIncludes msg MSG_NETWORK || strIncludes msg MSG_FETCH) = true := by
      rcases hnf with h | h <;> simp [h]
    simp [recoverFromError, hq, hj, hor]
  · intro hq hj hn hf
    simp [recoverFromError, hq, hj, hn, hf]
  · intro kv
    have hsp : (clearByPrefix KEY_PREDICTIONS s).storagePrefix = s.storagePrefix := rfl
    simp only [clearCorruptedEntries, clearByPrefix, hsp, List.mem_filter,
      Bool.not_eq_true']
    tauto
  · intro st hst
    refine ⟨(st.filter
        (fun kv => !(strStartsWith kv.1 (s.storagePrefix ++ KEY_PREDICTIONS)))).filter
        (fun kv => !(strStartsWith kv.1 (s.storagePrefix ++ KEY_MATCHES))), ?_, ?_⟩
    · simp [clearCorruptedEntries, clearByPrefix, hst]
    · intro kv
      simp only [List.mem_filter, Bool.not_eq_true']
      tauto

/-- Witness for C7: a message containing the quota marker force-flushes the
concrete store `sC8` and reports success. -/
theorem C7_witness :
    (recoverFromError mQuota sC8).1 = true ∧
    (recoverFromError mQuota sC8).2.memoryCache = [] := by
  have h := C7_recover_classification mQuota sC8
  exact ⟨h.1, (h.2.1 (by decide)).1⟩

/-! ## Rate-limiter helper lemmas -/

theorem mem_prune_le {now : Int} {rc : RequestCache} {e : Int × Nat}
    (h : e ∈ prune now rc) : now - RATE_LIMIT_WINDOW ≤ e.1 := by
  simp only [prune, List.mem_filter, Bool.not_eq_true', decide_eq_false_iff_not,
    not_lt] at h
  exact h.2

theorem mem_prune_orig {now : Int} {rc : RequestCache} {e : Int × Nat}
    (h : e ∈ prune now rc) : e ∈ rc := by
  simp only [prune, List.mem_filter] at h
  exact h.1

theorem checkRateLimit_count (now : Int) (rc : RequestCache) :
    (prune now rc).foldl
        (fun acc e => if now - RATE_LIMIT_WINDOW ≤ e.1 then acc + e.2 else acc) 0
      = recentTotal now rc :=
  foldl_condSum _ _ (fun _ he => mem_prune_le he)

/-- `checkRateLimit` reduced to specification-side quantities. -/
theorem checkRateLimit_eq (now : Int) (rc : RequestCache) :
    checkRateLimit now rc =
      (if MAX_REQUESTS_PER_WINDOW ≤ recentTotal now rc then
        ({ isRateLimited := true
           resetTime := some ((prune now rc).foldl
             (fun acc e => if e.1 < acc then e.1 else acc) now + RATE_LIMIT_WINDOW)
           remainingRequests := some 0
           cooldownMinutes := some (ceilDiv ((prune now rc).foldl
             (fun acc e => if e.1 < acc then e.1 else acc) now + RATE_LIMIT_WINDOW - now)
             (60 * 1000)) }, prune now rc)
      else
        ({ isRateLimited := false
           resetTime := none
           remainingRequests := some (MAX_REQUESTS_PER_WINDOW - recentTotal now rc)
           cooldownMinutes := none }, prune now rc)) := by
  unfold checkRateLimit
  dsimp only
  rw [show rc.filter (fun e => !(decide (e.1 < now - RATE_LIMIT_WINDOW)))
      = prune now rc from rfl]
  rw [checkRateLimit_count now rc]

theorem checkRateLimit_snd (now : Int) (rc : RequestCache) :
    (checkRateLimit now rc).2 = prune now rc := by
  rw [checkRateLimit_eq]
  split <;> rfl

theorem checkRateLimit_limited_iff (now : Int) (rc : RequestCache) :
    (checkRateLimit now rc).1.isRateLimited = true ↔
      MAX_REQUESTS_PER_WINDOW ≤ recentTotal now rc := by
  rw [checkRateLimit_eq]
  by_cases h : MAX_REQUESTS_PER_WINDOW ≤ recentTotal now rc <;> simp [h]

theorem recentTotal_prune_le (now now' : Int) (rc : RequestCache)
    (h : now ≤ now') :
    recentTotal now' (prune now rc) ≤ recentTotal now rc := by
  unfold recentTotal
  refine List.Sublist.sum_le_sum (List.Sublist.map _ ?_) (fun a _ => Nat.zero_le a)
  exact List.filter_sublist _

/-! ## Claim C3 -/

/-- C3: `checkRateLimit` first discards timestamps older than
`now - windowSize`; if the surviving request count reaches `maxRequests`
(10) it reports `isRateLimited = true`, `remainingRequests = 0`,
`resetTime = oldestRemainingTimestamp + windowSize` and
`cooldownMinutes = ceil((resetTime - now) / 60000)`; otherwise it reports
`isRateLimited = false` with `remainingRequests = maxRequests - count`.
The final conjuncts run the concrete scenario: ten requests at times 0…9,
a check at time 9 is limited with `resetTime = t0 + 60000`, and a check
after the window slides past `t0` is open again. -/
theorem C3_checkRateLimit_spec (now : Int) (rc : RequestCache)
    (hts : ∀ e ∈ rc, e.1 ≤ now) :
    ((checkRateLimit now rc).2 = prune now rc ∧
    (MAX_REQUESTS_PER_WINDOW ≤ recentTotal now rc →
      ∃ m, m ∈ (prune now rc).map (·.1) ∧
        (∀ t ∈ (prune now rc).map (·.1), m ≤ t) ∧
        (checkRateLimit now rc).1 =
          { isRateLimited := true
            resetTime := some (m + RATE_LIMIT_WINDOW)
            remainingRequests := some 0
            cooldownMinutes := some (ceilDiv (m + RATE_LIMIT_WINDOW - now) (60 * 1000)) }) ∧
    (recentTotal now rc < MAX_REQUESTS_PER_WINDOW →
      (checkRateLimit now rc).1 =
        { isRateLimited := false
          resetTime := none
          remainingRequests := some (MAX_REQUESTS_PER_WINDOW - recentTotal now rc)
          cooldownMinutes := none })) ∧
    ((checkRateLimit 9 rcTen).1 =
      { isRateLimited := true, resetTime := some 60000,
        remainingRequests := some 0, cooldownMinutes := some 1 } ∧
    (checkRateLimit 60001 (checkRateLimit 9 rcTen).2).1.isRateLimited = false) := by
  refine ⟨⟨checkRateLimit_snd now rc, ?_, ?_⟩, by decide, by decide⟩
  · intro hge
    set fold := (prune now rc).foldl (fun acc e => if e.1 < acc then e.1 else acc) now
      with hfold
    have hne : prune now rc ≠ [] := by
      intro hnil
      rw [recentTotal, hnil] at hge
      simp [MAX_REQUESTS_PER_WINDOW] at hge
    obtain ⟨e₀, he₀⟩ := List.exists_mem_of_ne_nil _ hne
    have hle := foldl_min_le (prune now rc) now
    have hmem : fold ∈ (prune now rc).map (·.1) := by
      rcases foldl_min_mem (prune now rc) now with hm | hm
      · have h1 : fold ≤ e₀.1 := hle.2 e₀ he₀
        have h2 : e₀.1 ≤ now := hts e₀ (mem_prune_orig he₀)
        have h3 : e₀.1 = fold := by omega
        rw [← h3]
        exact List.mem_map_of_mem _ he₀
      · exact hm
    refine ⟨fold, hmem, ?_, ?_⟩
    · intro t ht
      obtain ⟨e, he, rfl⟩ := List.mem_map.mp ht
      exact hle.2 e he
    · rw [checkRateLimit_eq, if_pos hge]
  · intro hlt
    rw [checkRateLimit_eq, if_neg (by omega)]

/-- Witness for C3: the general theorem applied at the concrete limited
scenario (ten requests at 0…9, checked at time 9). -/
theorem C3_witness :
    (checkRateLimit 9 rcTen).2 = prune 9 rcTen ∧
    ∃ m, m ∈ (prune 9 rcTen).map (·.1) ∧
      (∀ t ∈ (prune 9 rcTen).map (·.1), m ≤ t) ∧
      (checkRateLimit 9 rcTen).1 =
        { isRateLimited := true
          resetTime := some (m + RATE_LIMIT_WINDOW)
          remainingRequests := some 0
          cooldownMinutes := some (ceilDiv (m + RATE_LIMIT_WINDOW - 9) (60 * 1000)) } := by
  have h := C3_checkRateLimit_spec 9 rcTen (by decide)
  exact ⟨h.1.1, h.1.2.1 (by decide)⟩

/-! ## Claim C10 -/

/-- C10: `checkRateLimit` never adds request timestamps — its resulting
request cache is a sublist of the input — so across two consecutive checks
with a non-decreasing clock and no intervening `recordRequest` the
in-window total is non-increasing, and a not-rate-limited report can never
turn into a rate-limited one by checking alone. -/
theorem C10_check_monotone (now now' : Int) (rc : RequestCache)
    (h : now ≤ now') :
    (checkRateLimit now rc).2 <+ rc ∧
    recentTotal now' (checkRateLimit now rc).2 ≤ recentTotal now rc ∧
    ((checkRateLimit now rc).1.isRateLimited = false →
      (checkRateLimit now' (checkRateLimit now rc).2).1.isRateLimited = false) := by
  refine ⟨?_, ?_, ?_⟩
  · rw [checkRateLimit_snd]
    exact List.filter_sublist _
  · rw [checkRateLimit_snd]
    exact recentTotal_prune_le now now' rc h
  · intro hf
    have hlt : ¬ MAX_REQUESTS_PER_WINDOW ≤ recentTotal now rc := by
      intro hmax
      have := (checkRateLimit_limited_iff now rc).mpr hmax
      rw [hf] at this
      exact Bool.false_ne_true this
    by_contra hq
    have hq' : (checkRateLimit now' (checkRateLimit now rc).2).1.isRateLimited = true :=
      Bool.not_eq_false _ |>.mp hq
    have h10 := (checkRateLimit_limited_iff now' _).mp hq'
    rw [checkRateLimit_snd] at h10
    have hmono := recentTotal_prune_le now now' rc h
    omega

/-- Witness for C10: the theorem applied at the concrete request cache
`rcTen` with the clock moving from 0 to 5. -/
theorem C10_witness :
    (checkRateLimit 0 rcTen).2 <+ rcTen ∧
    recentTotal 5 (checkRateLimit 0 rcTen).2 ≤ recentTotal 0 rcTen ∧
    ((checkRateLimit 0 rcTen).1.isRateLimited = false →
      (checkRateLimit 5 (checkRateLimit 0 rcTen).2).1.isRateLimited = false) :=
  C10_check_monotone 0 5 rcTen (by decide)

/-! ## Claim C6 -/

/-- C6: `clearByPrefix p` removes from both tiers exactly the entries whose
logical key starts with `p`, and leaves every other entry unchanged (same
data, timestamp, ttl and metadata — the whole binding is preserved).  The
last two conjuncts run the concrete example: after setting
`predictions_a`, `predictions_b` and `matches_a`,
`clearByPrefix "predictions_"` removes both prediction keys from both
tiers and leaves `matches_a` intact. -/
theorem C6_clearByPrefix_exact (p : String) {α : Type} (s : CacheState α) :
    (∀ (k : String) (e : CacheEntry α),
      (s.storagePrefix ++ k, e) ∈ (clearByPrefix p s).memoryCache ↔
        ((s.storagePrefix ++ k, e) ∈ s.memoryCache ∧ strStartsWith k p = false)) ∧
    (∀ st, s.storage = some st →
      ∃ st', (clearByPrefix p s).storage = some st' ∧
        ∀ (k : String) (r : StoredRec α),
          ((s.storagePrefix ++ k, r) ∈ st' ↔
            ((s.storagePrefix ++ k, r) ∈ st ∧ strStartsWith k p = false))) ∧
    (clearByPrefix KEY_PREDICTIONS sC6).memoryCache
      = [(DEFAULT_PREFIX ++ kMatchA, entryOf 2 (some 3) {})] ∧
    (clearByPrefix KEY_PREDICTIONS sC6).storage
      = some [(DEFAULT_PREFIX ++ kMatchA, .ok (entryOf 2 (some 3) {}))] := by
  refine ⟨?_, ?_, by decide, by decide⟩
  · intro k e
    simp only [clearByPrefix, List.mem_filter, Bool.not_eq_true',
      strStartsWith_append]
  · intro st hst
    refine ⟨st.filter (fun kv => !(strStartsWith kv.1 (s.storagePrefix ++ p))), ?_, ?_⟩
    · simp [clearByPrefix, hst]
    · intro k r
      simp only [List.mem_filter, Bool.not_eq_true', strStartsWith_append]

/-- Witness for C6: the theorem applied at the concrete three-entry store,
with the tier-2 hypothesis discharged on its computed contents. -/
theorem C6_witness :
    ∃ st', (clearByPrefix KEY_PREDICTIONS sC6).storage = some st' ∧
      ∀ (k : String) (r : StoredRec Nat),
        ((DEFAULT_PREFIX ++ k, r) ∈ st' ↔
          (((DEFAULT_PREFIX ++ k, r) ∈
              [(DEFAULT_PREFIX ++ kPredA, .ok (entryOf 0 (some 1) {})),
               (DEFAULT_PREFIX ++ kPredB, .ok (entryOf 1 (some 2) {})),
               (DEFAULT_PREFIX ++ kMatchA, .ok (entryOf 2 (some 3) {}))] ∧
            strStartsWith k KEY_PREDICTIONS = false))) := by
  have h := (C6_clearByPrefix_exact KEY_PREDICTIONS sC6).2.1
    [(DEFAULT_PREFIX ++ kPredA, .ok (entryOf 0 (some 1) {})),
     (DEFAULT_PREFIX ++ kPredB, .ok (entryOf 1 (some 2) {})),
     (DEFAULT_PREFIX ++ kMatchA, .ok (entryOf 2 (some 3) {}))] (by decide)
  simpa using h

/-! ## Claim C1 -/

/-- C1: TTL correctness.  For `ttl > 0`, a `get(k)` immediately after
`set(k, v, \x7bttl\x7d)` (same clock instant, sane pre-state: no future
timestamps, capacity bound intact, unique tier-2 keys) is a hit returning
`v`; once more than `ttl` has elapsed the same `get(k)` is a miss, the
miss counter is bumped, and the expired record is gone from both tiers
(the tier-2 copy is removed by the read).  The final conjunct fixes the
expiry predicate: an entry is expired exactly when `now - timestamp >
ttl`. -/
theorem C1_ttl_correctness {α : Type} (s : CacheState α) (key : String) (v : α)
    (ttl now nowLater : Int) (st : List (String × StoredRec α))
    (httl : 0 < ttl)
    (hts : ∀ kv ∈ s.memoryCache, kv.2.timestamp ≤ now)
    (hlen : s.memoryCache.length ≤ s.maxMemoryEntries)
    (hst : s.storage = some st)
    (hnd : (st.map Prod.fst).Nodup)
    (hlate : ttl < nowLater - now) :
    (get now key (set now key (some v) { ttl := ttl } .success .success s)).1
      = some v ∧
    (get now key (set now key (some v) { ttl := ttl } .success .success s)).2.hits
      = (set now key (some v) { ttl := ttl } .success .success s).hits + 1 ∧
    (get nowLater key (set now key (some v) { ttl := ttl } .success .success s)).1
      = none ∧
    (get nowLater key (set now key (some v) { ttl := ttl } .success .success s)).2.misses
      = (set now key (some v) { ttl := ttl } .success .success s).misses + 1 ∧
    (∃ st', (get nowLater key
        (set now key (some v) { ttl := ttl } .success .success s)).2.storage
          = some st' ∧
      mapGet st' (s.storagePrefix ++ key) = none) ∧
    (∀ (t : Int) (e : CacheEntry α), isExpired t e = true ↔ e.ttl < t - e.timestamp) := by
  set opts : CacheOptions := { ttl := ttl } with hopts
  have hfk : fullKeyOf s opts key = s.storagePrefix ++ key := rfl
  set fk := s.storagePrefix ++ key with hfkdef
  set e0 : CacheEntry α := entryOf now (some v) opts with he0
  set s2 := setMemoryPhase now key (some v) opts s with hs2
  have hs2st : s2.storage = some st := by
    rw [hs2, setMemoryPhase_storage]; exact hst
  have hS : set now key (some v) opts .success .success s
      = { s2 with storage := some (mapSet st fk (.ok e0)) } := by
    show (if opts.persistToStorage then
        setStoragePhase now (fullKeyOf s opts key) (entryOf now (some v) opts)
          .success .success s.storagePrefix s2
      else s2) = _
    rw [if_pos rfl, hfk]
    show setStoragePhase now fk e0 .success .success s.storagePrefix s2 = _
    simp [setStoragePhase, hs2st]
  have hcfg := setMemoryPhase_config now key (some v) opts s
  have hmem2 : mapGet s2.memoryCache fk = some e0 := by
    rw [hs2, ← hfk]
    exact mapGet_setMemoryPhase_self now key (some v) opts s hts hlen
  have hpre : ({ s2 with storage := some (mapSet st fk (.ok e0)) } :
      CacheState α).storagePrefix = s.storagePrefix := by
    simpa using hcfg.2.2.2.2
  have hmemS : mapGet ({ s2 with storage := some (mapSet st fk (.ok e0)) } :
      CacheState α).memoryCache fk = some e0 := hmem2
  have hlive : isExpired now e0 = false := by
    simp only [he0, isExpired, entryOf, hopts]
    simp only [decide_eq_false_iff_not, not_lt]
    omega
  have hdead : isExpired nowLater e0 = true := by
    simp only [he0, isExpired, entryOf, hopts]
    simp only [decide_eq_true_eq]
    omega
  have hget1 : get now key (set now key (some v) opts .success .success s)
      = (e0.data, { { s2 with storage := some (mapSet st fk (.ok e0)) } with
          hits := ({ s2 with storage := some (mapSet st fk (.ok e0)) } :
            CacheState α).hits + 1 }) := by
    rw [hS]
    exact get_of_live_mem (by rw [hpre, ← hfkdef]; exact hmemS) hlive
  have hstore : mapGet (mapSet st fk (.ok e0)) fk = some (.ok e0) :=
    mapGet_mapSet_self st fk (.ok e0)
  have hget2 : get nowLater key (set now key (some v) opts .success .success s)
      = (none, { { s2 with storage := some (mapSet st fk (.ok e0)) } with
          storage := some (mapDelete (mapSet st fk (.ok e0)) fk)
          misses := ({ s2 with storage := some (mapSet st fk (.ok e0)) } :
            CacheState α).misses + 1 }) := by
    rw [hS]
    have hfull : ({ s2 with storage := some (mapSet st fk (.ok e0)) } :
        CacheState α).storagePrefix ++ key = fk := by rw [hpre]
    simp [get, hfull, hmemS, hdead, getFromStorage, hstore]
  refine ⟨?_, ?_, ?_, ?_, ?_, ?_⟩
  · rw [hget1, he0]; rfl
  · rw [hS] at hget1 ⊢
    rw [hget1]
  · rw [hget2]
  · rw [hS] at hget2 ⊢
    rw [hget2]
  · refine ⟨mapDelete (mapSet st fk (.ok e0)) fk, ?_, ?_⟩
    · rw [hget2]
    · rw [mapGet_eq_none_iff]
      exact not_mem_keys_mapDelete_self _ _ (nodup_keys_mapSet st fk (.ok e0) hnd)
  · intro t e
    simp [isExpired]

/-- Witness for C1: the theorem applied on a fresh store — `set` at time 0
with TTL 1000, read back at times 0 and 2000. -/
theorem C1_witness :
    (get 0 kX (set 0 kX (some 42) { ttl := 1000 } .success .success
      (initState 1000))).1 = some 42 ∧
    (get 2000 kX (set 0 kX (some 42) { ttl := 1000 } .success .success
      (initState 1000))).1 = none := by
  have h := C1_ttl_correctness (initState 1000) kX 42 1000 0 2000 []
    (by decide) (by simp [initState]) (by decide) (by decide) (by decide) (by decide)
  exact ⟨h.1, h.2.2.1⟩

/-! ## Claim C2 -/

/-- C2, counterexample to the claim as stated: with `maxEntries = 4`,
inserting 5 distinct keys sequentially leaves the tier-1 size at 5 — the
claimed bound `size ≤ maxEntries` is violated — and the evictions counter
never moves, because the eviction pass removes `floor(4 * 0.2) = 0`
entries, which is less than the overflow amount. -/
theorem C2_counterexample :
    (seqSets 5 4).memoryCache.length = 5 ∧
    (seqSets 5 4).maxMemoryEntries = 4 ∧
    (seqSets 5 4).evictions = 0 :=
  ⟨by decide, by decide, by decide⟩

/-- C2 (amended): whenever a `set` of a fresh key makes the tier-1 size
exceed `maxEntries` (sane pre-state: unique keys, no future timestamps,
size exactly `maxEntries`), the store removes exactly
`floor(maxEntries * 0.2)` entries — which may be FEWER than the overflow —
each no newer than any survivor, incrementing `evictions` once per
removal; the resulting size is `maxEntries + 1 - floor(maxEntries * 0.2)`,
which is `≤ maxEntries` precisely when `maxEntries ≥ 5`.  The concrete
conjuncts re-run the spec's example: with `maxEntries = 10`, eleven
sequential inserts leave exactly the keys `2…10` (the two
lowest-`timestamp` entries are gone), size `9 ≤ 10`, and `evictions = 2`. -/
theorem C2_eviction_amended :
    (∀ {α : Type} (s : CacheState α) (key : String) (data : Option α)
      (opts : CacheOptions) (w1 w2 : WriteOutcome) (now : Int),
      (s.memoryCache.map Prod.fst).Nodup →
      (∀ kv ∈ s.memoryCache, kv.2.timestamp ≤ now) →
      s.memoryCache.length = s.maxMemoryEntries →
      fullKeyOf s opts key ∉ s.memoryCache.map Prod.fst →
      (set now key data opts w1 w2 s).memoryCache.length
          + s.maxMemoryEntries * 2 / 10 = s.maxMemoryEntries + 1 ∧
      (set now key data opts w1 w2 s).evictions
          = s.evictions + s.maxMemoryEntries * 2 / 10 ∧
      (5 ≤ s.maxMemoryEntries →
        (set now key data opts w1 w2 s).memoryCache.length ≤ s.maxMemoryEntries) ∧
      (∀ kv ∈ mapSet s.memoryCache (fullKeyOf s opts key) (entryOf now data opts),
        kv ∉ (set now key data opts w1 w2 s).memoryCache →
        ∀ kv' ∈ (set now key data opts w1 w2 s).memoryCache,
          kv.2.timestamp ≤ kv'.2.timestamp)) ∧
    (seqSets 11 10).memoryCache.map Prod.fst
        = (List.range' 2 9).map (fun i => DEFAULT_PREFIX ++ toString i) ∧
    (seqSets 11 10).memoryCache.length = 9 ∧
    (seqSets 11 10).evictions = 2 ∧
    (seqSets 11 10).maxMemoryEntries = 10 := by
  refine ⟨?_, by decide, by decide, by decide, by decide⟩
  intro α s key data opts w1 w2 now hnd hts hfull hfresh
  set fk := fullKeyOf s opts key with hfkdef
  set e0 : CacheEntry α := entryOf now data opts with he0
  have hmemE : (set now key data opts w1 w2 s).memoryCache
      = (setMemoryPhase now key data opts s).memoryCache := by
    unfold set
    dsimp only
    split
    · rw [setStoragePhase_memoryCache]
    · rfl
  have hevE : (set now key data opts w1 w2 s).evictions
      = (setMemoryPhase now key data opts s).evictions := by
    unfold set
    dsimp only
    split
    · exact (setStoragePhase_metrics _ _ _ _ _ _ _).2.2.2.1
    · rfl
  have hms : mapSet s.memoryCache fk e0 = s.memoryCache ++ [(fk, e0)] :=
    mapSet_of_not_mem _ _ hfresh
  set m1 := mapSet s.memoryCache fk e0 with hm1def
  have hm1len : m1.length = s.maxMemoryEntries + 1 := by
    rw [hms]
    simp [hfull]
  have hphase : setMemoryPhase now key data opts s
      = evictOldestEntries
          { s with memoryCache := m1, sets := s.sets + 1 } := by
    unfold setMemoryPhase
    dsimp only
    rw [if_pos (by simp only [← hfkdef, ← he0, ← hm1def]; omega)]
  set sorted := sortByKey (fun kv => kv.2.timestamp) m1 with hsorteddef
  set q := s.maxMemoryEntries * 2 / 10 with hqdef
  have hperm : sorted ~ m1 := sortByKey_perm _ m1
  have hslen : sorted.length = s.maxMemoryEntries + 1 := hperm.length_eq.trans hm1len
  have hqle : q ≤ s.maxMemoryEntries := by
    rw [hqdef]
    calc s.maxMemoryEntries * 2 / 10 ≤ s.maxMemoryEntries * 10 / 10 :=
          Nat.div_le_div_right (Nat.mul_le_mul_left _ (by omega))
      _ = s.maxMemoryEntries := Nat.mul_div_cancel _ (by omega)
  have htl : (sorted.take q).length = q := by
    rw [List.length_take]
    omega
  have hm1nd : (m1.map Prod.fst).Nodup := nodup_keys_mapSet _ _ _ hnd
  have hsnd : (sorted.map Prod.fst).Nodup := ((hperm.map Prod.fst).nodup_iff).mpr hm1nd
  have hev_nd : ((sorted.take q).map Prod.fst).Nodup :=
    hsnd.sublist ((List.take_sublist q sorted).map Prod.fst)
  have hev_mem : ∀ x ∈ sorted.take q, x ∈ m1 :=
    fun x hx => hperm.mem_iff.mp (List.mem_of_mem_take hx)
  have hev_keys : ∀ x ∈ sorted.take q, x.1 ∈ m1.map Prod.fst :=
    fun x hx => List.mem_map_of_mem _ (hev_mem x hx)
  have hresmem : (setMemoryPhase now key data opts s).memoryCache
      = (sorted.take q).foldl (fun m kv => mapDelete m kv.1) m1 := by
    rw [hphase]
    unfold evictOldestEntries
    dsimp only
  have hresev : (setMemoryPhase now key data opts s).evictions
      = s.evictions + (sorted.take q).length := by
    rw [hphase]
    unfold evictOldestEntries
    dsimp only
  have hlen := length_foldl_mapDelete Prod.fst (sorted.take q) m1 hev_nd hev_keys
  refine ⟨?_, ?_, ?_, ?_⟩
  · rw [hmemE, hresmem]
    omega
  · rw [hevE, hresev, htl]
  · intro h5
    have hq1 : 1 ≤ q := by
      rw [hqdef]
      have : 10 ≤ s.maxMemoryEntries * 2 := by omega
      omega
    rw [hmemE, hresmem]
    omega
  · intro kv hkvm1 hkvnot kv' hkv'
    rw [hmemE, hresmem] at hkvnot hkv'
    rw [mem_foldl_mapDelete_iff Prod.fst _ _ _ hm1nd] at hkvnot hkv'
    push_neg at hkvnot
    obtain ⟨x, hxtake, hkx⟩ := hkvnot hkvm1
    have hkveq : kv = x :=
      entry_unique_of_nodup_keys hm1nd hkvm1 (hev_mem x hxtake) hkx
    have hkvtake : kv ∈ sorted.take q := hkveq ▸ hxtake
    have hkv'sorted : kv' ∈ sorted := hperm.mem_iff.mpr hkv'.1
    have hkv'drop : kv' ∈ sorted.drop q := by
      rcases List.mem_append.mp
          (by rw [List.take_append_drop q sorted]; exact hkv'sorted) with h | h
      · exact absurd rfl (hkv'.2 kv' h)
      · exact h
    have hp := sortByKey_sorted (fun kv : String × CacheEntry α => kv.2.timestamp) m1
    rw [← hsorteddef, ← List.take_append_drop q sorted] at hp
    exact (List.pairwise_append.mp hp).2.2 kv hkvtake kv' hkv'drop

/-- Witness for C2: the general part applied to a store filled to its
capacity of 10, with an 11th fresh insert; exactly `floor(10 * 0.2) = 2`
entries are evicted. -/
theorem C2_witness :
    (set 10 kX (some 99) {} .success .success (seqSets 10 10)).memoryCache.length
        + (seqSets 10 10).maxMemoryEntries * 2 / 10
      = (seqSets 10 10).maxMemoryEntries + 1 ∧
    (set 10 kX (some 99) {} .success .success (seqSets 10 10)).evictions
      = (seqSets 10 10).evictions + (seqSets 10 10).maxMemoryEntries * 2 / 10 := by
  have h := C2_eviction_amended.1 (seqSets 10 10) kX (some 99) {} .success .success 10
    (by decide) (by decide) (by decide) (by decide)
  exact ⟨h.1, h.2.1⟩

/-! ## Helper lemmas for the tier-2 space-reclaim pass -/

theorem contains_iff_mem_str (K : List String) (a : String) :
    K.contains a = true ↔ a ∈ K := by
  simp [List.contains_iff_exists_mem_beq]

theorem length_filter_mem_keys {κ : Type} [DecidableEq κ] [BEq κ] [LawfulBEq κ]
    (hcont : ∀ (K : List κ) (a : κ), K.contains a = true ↔ a ∈ K)
    (l K : List κ) (hl : l.Nodup) (hK : K.Nodup) (hsub : ∀ k ∈ K, k ∈ l) :
    (l.filter (fun a => K.contains a)).length = K.length := by
  induction l generalizing K with
  | nil =>
    have hKnil : K = [] := by
      cases K with
      | nil => rfl
      | cons k ks => exact absurd (hsub k (List.mem_cons_self _ _)) (List.not_mem_nil k)
    rw [hKnil]
    simp
  | cons a l' ih =>
    rw [List.nodup_cons] at hl
    by_cases ha : a ∈ K
    · have hc : K.contains a = true := (hcont K a).mpr ha
      have hcongr : l'.filter (fun x => K.contains x)
          = l'.filter (fun x => (K.erase a).contains x) := by
        refine List.filter_congr ?_
        intro x hx
        have hxa : x ≠ a := fun he => hl.1 (he ▸ hx)
        rw [Bool.eq_iff_iff, hcont, hcont, List.mem_erase_of_ne hxa]
      have hsub' : ∀ k ∈ K.erase a, k ∈ l' := by
        intro k hk
        have hkK : k ∈ K := List.mem_of_mem_erase hk
        have hkne : k ≠ a := by
          intro he
          subst he
          exact (List.Nodup.not_mem_erase hK) hk
        rcases List.mem_cons.mp (hsub k hkK) with h | h
        · exact absurd h hkne
        · exact h
      have hKlen : (K.erase a).length + 1 = K.length := by
        rw [List.length_erase_of_mem ha]
        have : 1 ≤ K.length := List.length_pos.mpr (fun hnil => by simp [hnil] at ha)
        omega
      rw [List.filter_cons, if_pos hc, List.length_cons, hcongr,
        ih (K.erase a) hl.2 (hK.erase a) hsub']
      omega
    · have hc : K.contains a = false := by
        rw [Bool.eq_false_iff]
        intro habs
        exact ha ((hcont K a).mp habs)
      have hsub' : ∀ k ∈ K, k ∈ l' := by
        intro k hk
        rcases List.mem_cons.mp (hsub k hk) with h | h
        · exact absurd (h ▸ hk) ha
        · exact h
      rw [List.filter_cons, if_neg (by rw [hc]; exact Bool.false_ne_true),
        ih K hl.2 hK hsub']

/-- The key/timestamp projection used inside `clearStorageSpace`. -/
theorem keyTs_filterMap_keys_sublist {α : Type} (l : List (String × StoredRec α)) :
    ((l.filterMap (fun kv => match kv.2 with
      | .ok e => some (kv.1, e.timestamp)
      | .bad => none)).map Prod.fst) <+ l.map Prod.fst := by
  induction l with
  | nil => simp
  | cons kv rest ih =>
    obtain ⟨k, r⟩ := kv
    cases r with
    | ok e => simpa [List.filterMap_cons] using ih.cons₂ k
    | bad => simpa [List.filterMap_cons] using ih.cons k

theorem mem_keyTs_filterMap {α : Type} (l : List (String × StoredRec α))
    (k : String) (t : Int) :
    (k, t) ∈ l.filterMap (fun kv => match kv.2 with
        | .ok e => some (kv.1, e.timestamp)
        | .bad => none)
      ↔ ∃ e : CacheEntry α, (k, .ok e) ∈ l ∧ e.timestamp = t := by
  rw [List.mem_filterMap]
  constructor
  · rintro ⟨⟨k', r⟩, hmem, hf⟩
    cases r with
    | ok e =>
      simp only [Option.some_inj, Prod.mk.injEq] at hf
      exact ⟨e, by rw [← hf.1]; exact hmem, hf.2⟩
    | bad => simp at hf
  · rintro ⟨e, hmem, ht⟩
    exact ⟨(k, .ok e), hmem, by simp [ht]⟩

/-- The reclaim pass only ever removes records. -/
theorem clearStorageSpace_sublist {α : Type} (now : Int) (sp : String)
    (st : List (String × StoredRec α)) :
    clearStorageSpace now sp st <+ st := by
  unfold clearStorageSpace
  dsimp only
  split
  · exact List.filter_sublist st
  · exact List.filter_sublist st

/-- Branch 1 of the reclaim pass: when some prefix-owned record is expired
or corrupt, exactly the expired/corrupt prefix-owned records are removed. -/
theorem clearStorageSpace_of_expired {α : Type} (now : Int) (sp : String)
    (st : List (String × StoredRec α))
    (hnd : (st.map Prod.fst).Nodup)
    (hex : ∃ kv ∈ st, strStartsWith kv.1 sp = true ∧ storedExpired now kv.2 = true) :
    clearStorageSpace now sp st
      = st.filter (fun kv => !(strStartsWith kv.1 sp && storedExpired now kv.2)) := by
  obtain ⟨kv₀, hkv₀, hp₀, he₀⟩ := hex
  have hmemf : kv₀ ∈ st.filter (fun kv => strStartsWith kv.1 sp && storedExpired now kv.2) :=
    List.mem_filter.mpr ⟨hkv₀, by rw [hp₀, he₀]; rfl⟩
  have hnonnil :
      ((st.filter (fun kv => strStartsWith kv.1 sp && storedExpired now kv.2)).map (·.1)) ≠ [] := by
    intro hnil
    rw [List.map_eq_nil_iff] at hnil
    rw [hnil] at hmemf
    exact List.not_mem_nil kv₀ hmemf
  unfold clearStorageSpace
  dsimp only
  rw [if_neg (by
    intro habs
    exact hnonnil (List.isEmpty_iff.mp habs))]
  refine List.filter_congr ?_
  intro kv hkv
  rw [Bool.eq_iff_iff]
  simp only [Bool.not_eq_true']
  rw [Bool.eq_false_iff, Bool.eq_false_iff]
  constructor
  · intro hnc habs
    apply hnc
    rw [contains_iff_mem_str, List.mem_map]
    exact ⟨kv, List.mem_filter.mpr ⟨hkv, habs⟩, rfl⟩
  · intro hnp habs
    apply hnp
    rw [contains_iff_mem_str, List.mem_map] at habs
    obtain ⟨kv', hkv', hk⟩ := habs
    have hkv'st : kv' ∈ st := (List.mem_filter.mp hkv').1
    have : kv' = kv := entry_unique_of_nodup_keys hnd hkv'st hkv hk
    rw [← this]
    exact (List.mem_filter.mp hkv').2

/-- Branch 2 of the reclaim pass: when no prefix-owned record is expired or
corrupt, the pass removes exactly `floor(n * 0.1)` records (where `n` is
the number of prefix-owned records), all of them prefix-owned and none of
them newer than any surviving prefix-owned record. -/
theorem clearStorageSpace_of_none_expired {α : Type} (now : Int) (sp : String)
    (st : List (String × StoredRec α))
    (hnd : (st.map Prod.fst).Nodup)
    (hno : ∀ kv ∈ st, strStartsWith kv.1 sp = true → storedExpired now kv.2 = false) :
    (clearStorageSpace now sp st).length
        + ((st.filter (fun kv => strStartsWith kv.1 sp)).filterMap
            (fun kv => match kv.2 with
              | .ok e => some (kv.1, e.timestamp)
              | .bad => none)).length / 10
      = st.length ∧
    (∀ kv ∈ st, kv ∉ clearStorageSpace now sp st →
      strStartsWith kv.1 sp = true ∧
      ∀ kv' ∈ clearStorageSpace now sp st, strStartsWith kv'.1 sp = true →
        storedTs kv.2 ≤ storedTs kv'.2) := by
  have hempty : st.filter (fun kv => strStartsWith kv.1 sp && storedExpired now kv.2) = [] := by
    rw [List.filter_eq_nil_iff]
    intro kv hkv habs
    rw [Bool.and_eq_true] at habs
    rw [hno kv hkv habs.1] at habs
    exact Bool.false_ne_true habs.2
  set entries := (st.filter (fun kv => strStartsWith kv.1 sp)).filterMap
    (fun kv : String × StoredRec α => match kv.2 with
      | .ok e => some (kv.1, e.timestamp)
      | .bad => none) with hent
  set sortedE := sortByKey (fun p : String × Int => p.2) entries with hsortedE
  set q := entries.length / 10 with hq
  set toRemove := (sortedE.take q).map (fun p : String × Int => p.1) with htr
  have hbranch : clearStorageSpace now sp st
      = st.filter (fun kv => !(toRemove.contains kv.1)) := by
    unfold clearStorageSpace
    dsimp only
    rw [if_pos (by rw [hempty]; rfl)]
  have hsperm : sortedE ~ entries := sortByKey_perm _ entries
  have hslen : sortedE.length = entries.length := hsperm.length_eq
  have hqlen : q ≤ sortedE.length := by
    rw [hslen, hq]
    exact Nat.div_le_self _ _
  have hek : (entries.map Prod.fst).Nodup := by
    have h1 : entries.map Prod.fst
        <+ (st.filter (fun kv => strStartsWith kv.1 sp)).map Prod.fst :=
      keyTs_filterMap_keys_sublist _
    have h2 : (st.filter (fun kv => strStartsWith kv.1 sp)).map Prod.fst
        <+ st.map Prod.fst :=
      (List.filter_sublist st).map Prod.fst
    exact hnd.sublist (h1.trans h2)
  have hsknd : (sortedE.map Prod.fst).Nodup := ((hsperm.map Prod.fst).nodup_iff).mpr hek
  have htrnd : toRemove.Nodup := by
    rw [htr]
    exact hsknd.sublist ((List.take_sublist q sortedE).map _)
  have htrsub : ∀ k ∈ toRemove, k ∈ st.map Prod.fst := by
    intro k hk
    rw [htr] at hk
    obtain ⟨p, hp, hpk⟩ := List.mem_map.mp hk
    have hpe : p ∈ entries := hsperm.mem_iff.mp (List.mem_of_mem_take hp)
    have : p.1 ∈ entries.map Prod.fst := List.mem_map_of_mem _ hpe
    have h1 : entries.map Prod.fst
        <+ (st.filter (fun kv => strStartsWith kv.1 sp)).map Prod.fst :=
      keyTs_filterMap_keys_sublist _
    have h2 : (st.filter (fun kv => strStartsWith kv.1 sp)).map Prod.fst
        <+ st.map Prod.fst :=
      (List.filter_sublist st).map Prod.fst
    have hsub2 : entries.map Prod.fst ⊆ st.map Prod.fst := (h1.trans h2).subset
    rw [← hpk]
    exact hsub2 this
  have htrlen : toRemove.length = q := by
    rw [htr, List.length_map, List.length_take]
    omega
  have hfl : (st.filter (fun kv => toRemove.contains kv.1)).length = toRemove.length := by
    have hmf : st.filter (fun kv => toRemove.contains kv.1)
        = st.filter ((fun a => toRemove.contains a) ∘ Prod.fst) := rfl
    have h1 : ((st.map Prod.fst).filter (fun a => toRemove.contains a)).length
        = (st.filter ((fun a => toRemove.contains a) ∘ Prod.fst)).length := by
      rw [List.filter_map, List.length_map]
    rw [hmf, ← h1]
    exact length_filter_mem_keys contains_iff_mem_str (st.map Prod.fst) toRemove
      hnd htrnd htrsub
  constructor
  · have hperm2 := (List.filter_append_perm (fun kv => toRemove.contains kv.1) st).length_eq
    rw [List.length_append] at hperm2
    rw [hbranch]
    rw [hfl, htrlen] at hperm2
    omega
  · intro kv hkvst hkvnot
    rw [hbranch] at hkvnot
    have hcont : toRemove.contains kv.1 = true := by
      by_contra hnc
      have hnc' : toRemove.contains kv.1 = false := Bool.eq_false_iff.mpr hnc
      exact hkvnot (List.mem_filter.mpr ⟨hkvst, by rw [hnc']; rfl⟩)
    have hkR : kv.1 ∈ toRemove := (contains_iff_mem_str _ _).mp hcont
    rw [htr] at hkR
    obtain ⟨p, hptake, hpk⟩ := List.mem_map.mp hkR
    have hpent : p ∈ entries := hsperm.mem_iff.mp (List.mem_of_mem_take hptake)
    obtain ⟨pk, pt⟩ := p
    rw [hent] at hpent
    obtain ⟨e, hmemf, hets⟩ := (mem_keyTs_filterMap _ pk pt).mp hpent
    have hmemst : (pk, StoredRec.ok e) ∈ st := (List.mem_filter.mp hmemf).1
    have hpre : strStartsWith pk sp = true := by
      simpa using (List.mem_filter.mp hmemf).2
    have hkveq : kv = (pk, StoredRec.ok e) :=
      entry_unique_of_nodup_keys hnd hkvst hmemst (by rw [← hpk])
    have hkvpre : strStartsWith kv.1 sp = true := by
      rw [hkveq]
      exact hpre
    refine ⟨hkvpre, ?_⟩
    intro kv' hkv' hpre'
    rw [hbranch] at hkv'
    have hkv'st : kv' ∈ st := (List.mem_filter.mp hkv').1
    have hkv'nc : toRemove.contains kv'.1 = false := by
      have := (List.mem_filter.mp hkv').2
      rwa [Bool.not_eq_true'] at this
    have hkv'notR : kv'.1 ∉ toRemove := by
      intro habs
      rw [(contains_iff_mem_str toRemove kv'.1).mpr habs] at hkv'nc
      exact absurd hkv'nc (by decide)
    obtain ⟨k', r'⟩ := kv'
    have hexp' : storedExpired now r' = false := hno (k', r') hkv'st hpre'
    obtain ⟨e', he'⟩ : ∃ e', r' = StoredRec.ok e' := by
      cases r' with
      | ok e' => exact ⟨e', rfl⟩
      | bad => simp [storedExpired] at hexp'
    subst he'
    have hp'ent : (k', e'.timestamp) ∈ entries := by
      rw [hent]
      refine (mem_keyTs_filterMap _ k' e'.timestamp).mpr ⟨e', ?_, rfl⟩
      exact List.mem_filter.mpr ⟨hkv'st, by simpa using hpre'⟩
    have hp'sorted : (k', e'.timestamp) ∈ sortedE := hsperm.mem_iff.mpr hp'ent
    have hp'drop : (k', e'.timestamp) ∈ sortedE.drop q := by
      rcases List.mem_append.mp
          (by rw [List.take_append_drop q sortedE]; exact hp'sorted) with h | h
      · refine absurd ?_ hkv'notR
        show k' ∈ toRemove
        rw [htr]
        exact List.mem_map_of_mem (fun p : String × Int => p.1) h
      · exact h
    have hpair := sortByKey_sorted (fun p : String × Int => p.2) entries
    rw [← hsortedE, ← List.take_append_drop q sortedE] at hpair
    have hle := (List.pairwise_append.mp hpair).2.2 (pk, pt) hptake
      (k', e'.timestamp) hp'drop
    rw [hkveq]
    simp only [storedTs]
    omega

/-! ## Claim C4 -/

/-- C4: when the tier-2 write of `set` fails with a quota-exceeded error,
`set` performs exactly one space-reclaim pass and retries the write exactly
once — the resulting tier-2 store is the reclaimed store with the entry
re-added when the retry succeeds, and the reclaimed store alone when the
retry fails — `set` always completes (it is a total function), and a
subsequent `get` still returns the just-written value from tier 1
regardless of the tier-2 outcome.  The final conjuncts characterize the
reclaim pass itself: it never adds records; when some prefix-owned record
is expired or corrupt it removes exactly those; otherwise it removes the
oldest `floor(n * 0.1)` prefix-owned records by `timestamp`. -/
theorem C4_quota_recovery {α : Type} (s : CacheState α) (key : String) (v : α)
    (ttl now : Int) (st : List (String × StoredRec α)) (w2 : WriteOutcome)
    (httl : 0 < ttl)
    (hts : ∀ kv ∈ s.memoryCache, kv.2.timestamp ≤ now)
    (hlen : s.memoryCache.length ≤ s.maxMemoryEntries)
    (hst : s.storage = some st)
    (hnd : (st.map Prod.fst).Nodup) :
    (set now key (some v) { ttl := ttl } .quotaExceeded w2 s).storage
      = some (if w2 = .success
          then mapSet (clearStorageSpace now s.storagePrefix st)
                 (s.storagePrefix ++ key) (.ok (entryOf now (some v) { ttl := ttl }))
          else clearStorageSpace now s.storagePrefix st) ∧
    (get now key (set now key (some v) { ttl := ttl } .quotaExceeded w2 s)).1
      = some v ∧
    clearStorageSpace now s.storagePrefix st <+ st ∧
    ((∃ kv ∈ st, strStartsWith kv.1 s.storagePrefix = true ∧
        storedExpired now kv.2 = true) →
      clearStorageSpace now s.storagePrefix st
        = st.filter (fun kv =>
            !(strStartsWith kv.1 s.storagePrefix && storedExpired now kv.2))) ∧
    ((∀ kv ∈ st, strStartsWith kv.1 s.storagePrefix = true →
        storedExpired now kv.2 = false) →
      (clearStorageSpace now s.storagePrefix st).length
          + ((st.filter (fun kv => strStartsWith kv.1 s.storagePrefix)).filterMap
              (fun kv => match kv.2 with
                | .ok e => some (kv.1, e.timestamp)
                | .bad => none)).length / 10
        = st.length ∧
      (∀ kv ∈ st, kv ∉ clearStorageSpace now s.storagePrefix st →
        strStartsWith kv.1 s.storagePrefix = true ∧
        ∀ kv' ∈ clearStorageSpace now s.storagePrefix st,
          strStartsWith kv'.1 s.storagePrefix = true →
          storedTs kv.2 ≤ storedTs kv'.2)) := by
  set opts : CacheOptions := { ttl := ttl } with hopts
  have hfk : fullKeyOf s opts key = s.storagePrefix ++ key := rfl
  set fk := s.storagePrefix ++ key with hfkdef
  set e0 : CacheEntry α := entryOf now (some v) opts with he0
  set s2 := setMemoryPhase now key (some v) opts s with hs2
  have hs2st : s2.storage = some st := by
    rw [hs2, setMemoryPhase_storage]; exact hst
  have hS : set now key (some v) opts .quotaExceeded w2 s
      = setStoragePhase now fk e0 .quotaExceeded w2 s.storagePrefix s2 := by
    show (if opts.persistToStorage then
        setStoragePhase now (fullKeyOf s opts key) (entryOf now (some v) opts)
          .quotaExceeded w2 s.storagePrefix s2
      else s2) = _
    rw [if_pos rfl, hfk]
  have hcfg := setMemoryPhase_config now key (some v) opts s
  have hmem2 : mapGet s2.memoryCache fk = some e0 := by
    rw [hs2, ← hfk]
    exact mapGet_setMemoryPhase_self now key (some v) opts s hts hlen
  have hmet := setStoragePhase_metrics now fk e0 .quotaExceeded w2 s.storagePrefix s2
  have hpre : (setStoragePhase now fk e0 .quotaExceeded w2
      s.storagePrefix s2).storagePrefix = s.storagePrefix := by
    rw [hmet.2.2.2.2.2, hs2]
    exact (setMemoryPhase_config now key (some v) opts s).2.2.2.2
  have hmemS : mapGet (setStoragePhase now fk e0 .quotaExceeded w2
      s.storagePrefix s2).memoryCache fk = some e0 := by
    rw [setStoragePhase_memoryCache]
    exact hmem2
  have hlive : isExpired now e0 = false := by
    simp only [he0, isExpired, entryOf, hopts]
    simp only [decide_eq_false_iff_not, not_lt]
    omega
  refine ⟨?_, ?_, clearStorageSpace_sublist now s.storagePrefix st, ?_, ?_⟩
  · rw [hS]
    cases w2 <;> simp [setStoragePhase, hs2st, ← hfkdef, ← he0]
  · rw [hS]
    rw [get_of_live_mem (by rw [hpre, ← hfkdef]; exact hmemS) hlive]
    rw [he0]
    rfl
  · intro hex
    exact clearStorageSpace_of_expired now s.storagePrefix st hnd hex
  · intro hno
    exact clearStorageSpace_of_none_expired now s.storagePrefix st hnd hno

/-- Witness for C4: a quota-exceeded write on the concrete store `sC8` with
a failing retry — the tier 2 store ends as the bare reclaimed store, and
`get` still serves the freshly written value from tier 1. -/
theorem C4_witness :
    (set 1 kX (some 7) { ttl := 1000 } .quotaExceeded .otherFailure sC8).storage
      = some (clearStorageSpace 1 sC8.storagePrefix
          [(DEFAULT_PREFIX ++ kX, .ok eC8)]) ∧
    (get 1 kX (set 1 kX (some 7) { ttl := 1000 } .quotaExceeded .otherFailure sC8)).1
      = some 7 := by
  have h := C4_quota_recovery sC8 kX 7 1000 1 [(DEFAULT_PREFIX ++ kX, .ok eC8)]
    .otherFailure (by decide) (by decide) (by decide) (by decide) (by decide)
  refine ⟨?_, h.2.1⟩
  simpa using h.1

end SportyKoko
